import Mathlib

/-!
Verification of the ai-news-repo article pipeline.

The Python sources under `scripts/` are shallowly embedded below:
pure helpers become Lean functions on `String` / `List Char`; the
Supabase store becomes a `List Article` with the PostgREST query
semantics the scripts rely on; model calls become an oracle
`Nat → ModelOutcome` consumed by the retry loops.  Python `float`
delay values are modelled as exact rationals (`ℚ`); all inputs of
interest are ASCII, so `str` is modelled as `String`.
-/

namespace AINews

/- Batteries marks the `Rat` arithmetic operations `[irreducible]`, which
blocks `decide` on concrete rational computations; restore the default
reducibility for this development. -/
attribute [local semireducible] Rat.mul Rat.add Rat.sub Rat.inv

/-! ## Python string primitives -/

/-- Python whitespace for `str.strip`, `str.split` and the `re` class `\s`
(ASCII range): space, tab, newline, carriage return, vertical tab, form feed. -/
def pyIsSpace (c : Char) : Bool :=
  c = ' ' || c = '\t' || c = '\n' || c = '\r' || c = Char.ofNat 11 || c = Char.ofNat 12

/-- Word character for the `re` class `\w` (ASCII range). -/
def isWordChar (c : Char) : Bool :=
  c.isAlpha || c.isDigit || c = '_'

/-- ASCII digit, the `re` class `\d`. -/
def isDigitChar (c : Char) : Bool := c.isDigit

def dropWhileRight (p : Char → Bool) (cs : List Char) : List Char :=
  ((cs.reverse).dropWhile p).reverse

/-- `str.strip()` with no argument: remove surrounding whitespace. -/
def pyStrip (s : String) : String :=
  ⟨dropWhileRight pyIsSpace (s.data.dropWhile pyIsSpace)⟩

/-- `str.rstrip(chars)`: remove trailing characters drawn from `chars`. -/
def pyRstrip (chars : List Char) (s : String) : String :=
  ⟨dropWhileRight (fun c => chars.contains c) s.data⟩

/-- `str.lower()` (ASCII case mapping suffices for the URLs considered). -/
def pyLower (s : String) : String :=
  ⟨s.data.map Char.toLower⟩

/-- `str.split()` with no argument: split on whitespace runs, no empty parts. -/
def pySplitWs (s : String) : List String :=
  ((s.data.splitOnP pyIsSpace).filter (fun l => !l.isEmpty)).map (fun l => ⟨l⟩)

/-- `scripts/summarize_articles.py`, `count_words`: `len(text.split())`. -/
def count_words (s : String) : Nat := (pySplitWs s).length

/-- The backtick character (markdown fence marker). -/
def backtick : Char := Char.ofNat 96

/-- Left brace character. -/
def lbrace : Char := Char.ofNat 123

/-- Right brace character. -/
def rbrace : Char := Char.ofNat 125

/-- Backslash character. -/
def backslash : Char := Char.ofNat 92

/-- Double quote character. -/
def dquote : Char := Char.ofNat 34

/-- Single quote character. -/
def squote : Char := Char.ofNat 39

/-! ## JSON values and a strict parser

Model of Python's `json.loads` as used by `_try_parse` in
`scripts/filter_content.py`.  Numbers are held as exact rationals.
Non-finite float literals (`NaN`, `Infinity`), which `json.loads`
would accept, do not occur in any input considered here and are
outside the model. -/

inductive Json where
  | null : Json
  | bool (b : Bool) : Json
  | num (q : ℚ) : Json
  | str (s : String) : Json
  | arrNil : Json
  | arrCons (hd tl : Json) : Json
  | objNil : Json
  | objCons (key : String) (val : Json) (tl : Json) : Json
deriving DecidableEq, Repr

/-- Whether a decoded value is a Python `dict` (`isinstance(obj, dict)`). -/
def jsonIsObj : Json → Bool
  | Json.objNil => true
  | Json.objCons _ _ _ => true
  | _ => false

/-- Member list of a decoded object, in document order (duplicates kept). -/
def objMembers : Json → List (String × Json)
  | Json.objCons k v t => (k, v) :: objMembers t
  | _ => []

/-- JSON inter-token whitespace (space, tab, newline, carriage return). -/
def skipJsonWs (cs : List Char) : List Char :=
  cs.dropWhile (fun c => c = ' ' || c = '\t' || c = '\n' || c = '\r')

def hexVal (c : Char) : Option Nat :=
  if c.isDigit then some (c.toNat - 48)
  else if 'a' ≤ c && c ≤ 'f' then some (c.toNat - 87)
  else if 'A' ≤ c && c ≤ 'F' then some (c.toNat - 55)
  else none

/-- JSON string body after the opening quote; strict mode: raw control
characters are rejected, only the standard escapes are recognized. -/
def parseJsonStringAux : List Char → Option (List Char × List Char)
  | [] => none
  | c :: rest =>
    if c = dquote then some ([], rest)
    else if c = backslash then
      match rest with
      | [] => none
      | e :: r2 =>
        if e = 'u' then
          match r2 with
          | h1 :: h2 :: h3 :: h4 :: r3 =>
            match hexVal h1, hexVal h2, hexVal h3, hexVal h4 with
            | some a, some b, some c3, some d =>
              (parseJsonStringAux r3).map
                (fun p => (Char.ofNat (((a * 16 + b) * 16 + c3) * 16 + d) :: p.1, p.2))
            | _, _, _, _ => none
          | _ => none
        else
          let esc : Option Char :=
            if e = dquote then some dquote
            else if e = backslash then some backslash
            else if e = '/' then some '/'
            else if e = 'b' then some (Char.ofNat 8)
            else if e = 'f' then some (Char.ofNat 12)
            else if e = 'n' then some '\n'
            else if e = 'r' then some '\r'
            else if e = 't' then some '\t'
            else none
          match esc with
          | some ch => (parseJsonStringAux r2).map (fun p => (ch :: p.1, p.2))
          | none => none
    else if c.toNat < 32 then none
    else (parseJsonStringAux rest).map (fun p => (c :: p.1, p.2))

def parseJsonString (cs : List Char) : Option (String × List Char) :=
  (parseJsonStringAux cs).map (fun p => (⟨p.1⟩, p.2))

def digitsToNat (ds : List Char) : Nat :=
  ds.foldl (fun n c => 10 * n + (c.toNat - 48)) 0

/-- JSON number grammar: `-? (0 | [1-9][0-9]*) (\.[0-9]+)? ([eE][-+]?[0-9]+)?`,
returning the exact rational value. -/
def parseJsonNumber (cs : List Char) : Option (ℚ × List Char) :=
  let (neg, cs1) :=
    match cs with
    | c :: r => if c = '-' then (true, r) else (false, cs)
    | [] => (false, cs)
  match cs1 with
  | [] => none
  | d :: _ =>
    if !d.isDigit then none
    else
      let intDigits := if d = '0' then [d] else cs1.takeWhile isDigitChar
      let rest1 := cs1.drop intDigits.length
      let (fracDigits, rest2) :=
        match rest1 with
        | c :: r =>
          if c = '.' then
            let fd := r.takeWhile isDigitChar
            if fd.isEmpty then ([], rest1) else (fd, r.drop fd.length)
          else ([], rest1)
        | [] => ([], rest1)
      let (expVal, expNeg, rest3) :=
        match rest2 with
        | c :: r =>
          if c = 'e' || c = 'E' then
            let (eneg, r1) :=
              match r with
              | s :: r2 => if s = '-' then (true, r2) else if s = '+' then (false, r2) else (false, r)
              | [] => (false, r)
            let ed := r1.takeWhile isDigitChar
            if ed.isEmpty then (0, false, rest2) else (digitsToNat ed, eneg, r1.drop ed.length)
          else (0, false, rest2)
        | [] => (0, false, rest2)
      let mantissa : ℚ :=
        (digitsToNat intDigits : ℚ) + (digitsToNat fracDigits : ℚ) / ((10 : ℚ) ^ fracDigits.length)
      let scaled : ℚ :=
        if expNeg then mantissa / ((10 : ℚ) ^ expVal) else mantissa * ((10 : ℚ) ^ expVal)
      some (if neg then -scaled else scaled, rest3)

/-- Parse mode: a whole value, the members of an object (consuming the
closing brace), or the elements of an array (consuming the closing bracket). -/
inductive PMode where
  | value : PMode
  | members : PMode
  | elems : PMode

/-- Recursive JSON parser, fueled so it is structurally recursive; every
recursive call strictly consumes input, so fuel `length + 1` suffices.
In `members` mode the result is an object chain (the closing brace is
consumed); in `elems` mode an array chain (closing bracket consumed). -/
def parseJ : Nat → PMode → List Char → Option (Json × List Char)
  | 0, _, _ => none
  | fuel + 1, PMode.value, cs =>
    let cs := skipJsonWs cs
    match cs with
    | [] => none
    | c :: rest =>
      if c = dquote then (parseJsonString rest).map (fun p => (Json.str p.1, p.2))
      else if c = lbrace then
        let cs2 := skipJsonWs rest
        match cs2 with
        | c2 :: r2 =>
          if c2 = rbrace then some (Json.objNil, r2)
          else parseJ fuel PMode.members cs2
        | [] => none
      else if c = '[' then
        let cs2 := skipJsonWs rest
        match cs2 with
        | c2 :: r2 =>
          if c2 = ']' then some (Json.arrNil, r2)
          else parseJ fuel PMode.elems cs2
        | [] => none
      else if "true".data.isPrefixOf cs then some (Json.bool true, cs.drop 4)
      else if "false".data.isPrefixOf cs then some (Json.bool false, cs.drop 5)
      else if "null".data.isPrefixOf cs then some (Json.null, cs.drop 4)
      else (parseJsonNumber cs).map (fun p => (Json.num p.1, p.2))
  | fuel + 1, PMode.members, cs =>
    let cs := skipJsonWs cs
    match cs with
    | [] => none
    | c :: rest =>
      if c = dquote then
        match parseJsonString rest with
        | some (key, r1) =>
          match skipJsonWs r1 with
          | ':' :: r3 =>
            match parseJ fuel PMode.value r3 with
            | some (j, r4) =>
              match skipJsonWs r4 with
              | ',' :: r6 =>
                match parseJ fuel PMode.members r6 with
                | some (kvs, r7) => some (Json.objCons key j kvs, r7)
                | none => none
              | c5 :: r6 =>
                if c5 = rbrace then some (Json.objCons key j Json.objNil, r6) else none
              | [] => none
            | none => none
          | _ => none
        | none => none
      else none
  | fuel + 1, PMode.elems, cs =>
    match parseJ fuel PMode.value cs with
    | some (j, r1) =>
      match skipJsonWs r1 with
      | ',' :: r2 =>
        match parseJ fuel PMode.elems r2 with
        | some (js, r3) => some (Json.arrCons j js, r3)
        | none => none
      | c :: r2 => if c = ']' then some (Json.arrCons j Json.arrNil, r2) else none
      | [] => none
    | none => none

/-- Model of `json.loads`: parse a single document and require only
whitespace after it. -/
def json_loads (s : String) : Option Json :=
  match parseJ (s.length + 1) PMode.value s.data with
  | some (j, rest) => if (skipJsonWs rest).isEmpty then some j else none
  | none => none

/-- Model of `dict.get(key, default)` on a parsed object: Python builds the
dict from the member list with later duplicates overwriting earlier ones,
so the last binding of a key wins. -/
def pyGet (kvs : List (String × Json)) (k : String) (d : Json) : Json :=
  match (kvs.filter (fun p => p.1 = k)).getLast? with
  | some p => p.2
  | none => d

/-- Python truthiness on JSON-decoded values. -/
def pyTruthy : Json → Bool
  | Json.null => false
  | Json.bool b => b
  | Json.num q => q ≠ 0
  | Json.str s => s ≠ ""
  | Json.arrNil => false
  | Json.arrCons _ _ => true
  | Json.objNil => false
  | Json.objCons _ _ _ => true

/-- Python `and` on JSON-decoded values (value semantics): returns the left
operand when it is falsy, otherwise the right operand. -/
def pyAnd (a b : Json) : Json :=
  if pyTruthy a then b else a

/-! ## Model response interpreter
(`parse_filter_response`, `scripts/filter_content.py` lines 133-212)

Each `re.sub`/`re.search` in the source uses a pattern whose greedy parts
are followed by characters excluded from the repeated class, so matching
is deterministic; each transform below is the compiled form of one such
pattern, with a comment giving the original. -/

/-- Compiled `re.sub(r'^```(?:json)?\s*\n?', '', text)`: if the text starts
with three backticks, remove them, an optional literal `json`, and the
following maximal whitespace run (the greedy `\s*` subsumes the `\n?`). -/
def stripFenceOpen (s : String) : String :=
  let cs := s.data
  if [backtick, backtick, backtick].isPrefixOf cs then
    let r1 := cs.drop 3
    let r2 := if "json".data.isPrefixOf r1 then r1.drop 4 else r1
    ⟨r2.dropWhile pyIsSpace⟩
  else s

/-- Compiled `re.sub(r'\n?```\s*$', '', text)`: the `\s*$` forces everything
after the backticks to be whitespace, so a match can only start at the last
three non-whitespace characters; when those are backticks, remove them, the
trailing whitespace, and one preceding newline. -/
def stripFenceClose (s : String) : String :=
  let r := dropWhileRight pyIsSpace s.data
  if [backtick, backtick, backtick].isSuffixOf r then
    let r1 := r.take (r.length - 3)
    match r1.getLast? with
    | some c => if c = '\n' then ⟨r1.take (r1.length - 1)⟩ else ⟨r1⟩
    | none => ⟨r1⟩
  else s

/-- Model of the inner `_try_parse`: `json.loads`, keeping the result only
when it is a `dict` (returned as its member list, duplicates preserved). -/
def tryParseDict (s : String) : Option (List (String × Json)) :=
  match json_loads s with
  | some j => if jsonIsObj j then some (objMembers j) else none
  | none => none

/-- The `if result:` guard at each call site of `_try_parse`: an empty dict
is falsy, so only a non-empty parse is returned. -/
def keepTruthy : Option (List (String × Json)) → Option (List (String × Json))
  | some l => if l.isEmpty then none else some l
  | none => none

/-- Compiled `re.sub(r'\bW\b', repl, s)` for a word `w` made of word
characters (used with `True→true`, `False→false`, `None→null`).  The flag
carries whether the character before the current position is a word
character, deciding the left `\b`; the right `\b` checks the character
after the match. -/
def subWordAux (w repl : List Char) : Nat → Bool → List Char → List Char
  | 0, _, cs => cs
  | _ + 1, _, [] => []
  | fuel + 1, prevWord, c :: rest =>
    let here := c :: rest
    let after := here.drop w.length
    if !prevWord && w.isPrefixOf here &&
        (match after.head? with | some n => !isWordChar n | none => true) then
      repl ++ subWordAux w repl fuel true after
    else c :: subWordAux w repl fuel (isWordChar c) rest

def subWord (w repl : String) (cs : List Char) : List Char :=
  subWordAux w.data repl.data (cs.length + 1) false cs

/-- Compiled `re.sub(r"'(\w[\w-]*)'\s*:", r'"\1":', s)`: single-quoted keys
become double-quoted, dropping whitespace before the colon. -/
def subKeysAux : Nat → List Char → List Char
  | 0, cs => cs
  | _ + 1, [] => []
  | fuel + 1, c :: rest =>
    if c = squote then
      match rest.head? with
      | some d =>
        if isWordChar d then
          let ident := rest.takeWhile (fun x => isWordChar x || x = '-')
          match rest.drop ident.length with
          | q :: r2 =>
            if q = squote then
              match r2.drop (r2.takeWhile pyIsSpace).length with
              | col :: r4 =>
                if col = ':' then
                  dquote :: (ident ++ dquote :: ':' :: subKeysAux fuel r4)
                else c :: subKeysAux fuel rest
              | [] => c :: subKeysAux fuel rest
            else c :: subKeysAux fuel rest
          | [] => c :: subKeysAux fuel rest
        else c :: subKeysAux fuel rest
      | none => [c]
    else c :: subKeysAux fuel rest

/-- Compiled `re.sub(r":\s*'([^']*?)'", r': "\1"', s)`: single-quoted string
values after a colon become double-quoted, with a single space after the
colon. -/
def subValsAux : Nat → List Char → List Char
  | 0, cs => cs
  | _ + 1, [] => []
  | fuel + 1, c :: rest =>
    if c = ':' then
      match rest.drop (rest.takeWhile pyIsSpace).length with
      | q :: r2 =>
        if q = squote then
          let content := r2.takeWhile (fun x => x ≠ squote)
          match r2.drop content.length with
          | _ :: r4 =>
            ':' :: ' ' :: dquote :: (content ++ dquote :: subValsAux fuel r4)
          | [] => c :: subValsAux fuel rest
        else c :: subValsAux fuel rest
      | [] => c :: subValsAux fuel rest
    else c :: subValsAux fuel rest

/-- Compiled `re.sub(r',\s*}', '}', s)`: drop trailing commas before a
closing brace. -/
def subTrailingCommasAux : Nat → List Char → List Char
  | 0, cs => cs
  | _ + 1, [] => []
  | fuel + 1, c :: rest =>
    if c = ',' then
      match rest.drop (rest.takeWhile pyIsSpace).length with
      | b :: r2 =>
        if b = rbrace then rbrace :: subTrailingCommasAux fuel r2
        else c :: subTrailingCommasAux fuel rest
      | [] => c :: subTrailingCommasAux fuel rest
    else c :: subTrailingCommasAux fuel rest

/-- Model of the inner `_normalise` helper: the five `re.sub` passes in
source order.  Fuel `length + 1` is ample: every recursive call consumes at
least one character. -/
def pyNormalise (s : String) : String :=
  let a := subWord "True" "true" s.data
  let b := subWord "False" "false" a
  let c := subWord "None" "null" b
  let d := subKeysAux (c.length + 1) c
  let e := subValsAux (d.length + 1) d
  let f := subTrailingCommasAux (e.length + 1) e
  ⟨f⟩

/-- Compiled `re.search(r'\{[^{}]*\}', candidate, re.DOTALL)`: the first
opening brace whose following brace-free run ends at a closing brace. -/
def extractBraces : List Char → Option (List Char)
  | [] => none
  | c :: rest =>
    if c = lbrace then
      let body := rest.takeWhile (fun x => !(x = lbrace || x = rbrace))
      match rest.drop body.length with
      | b :: _ => if b = rbrace then some (c :: (body ++ [b])) else extractBraces rest
      | [] => none
    else extractBraces rest

/-- Whether the truncation-repair pattern
`,?\s*"[^"]*"\s*:\s*"?[^"{}]*$` matches starting exactly at the head of
`cs` (it always extends to the end of the string: the final greedy class
contains the newline, so `$` is reached only at the true end). -/
def truncMatchAt (cs : List Char) : Bool :=
  let r0 := match cs with
            | c :: r => if c = ',' then r else cs
            | [] => cs
  match r0.dropWhile pyIsSpace with
  | q :: r2 =>
    if q = dquote then
      let content := r2.takeWhile (fun x => x ≠ dquote)
      match r2.drop content.length with
      | _ :: r3 =>
        match r3.dropWhile pyIsSpace with
        | col :: r5 =>
          if col = ':' then
            let r6 := r5.dropWhile pyIsSpace
            let r7 := match r6 with
                      | v :: rr => if v = dquote then rr else r6
                      | [] => r6
            r7.all (fun x => !(x = dquote || x = lbrace || x = rbrace))
          else false
        | [] => false
      | [] => false
    else false
  | [] => false

/-- Apply `re.sub(r',?\s*"[^"]*"\s*:\s*"?[^"{}]*$', '', fragment)`: remove
the suffix at the leftmost position where the pattern matches. -/
def removeTruncTail : List Char → List Char
  | [] => []
  | c :: rest =>
    if truncMatchAt (c :: rest) then []
    else c :: removeTruncTail rest

/-- Step 5 of the ladder for one candidate: when the candidate contains an
opening brace, take the fragment from the first `{`, drop a dangling
trailing key/value pair, strip trailing `', \t\n'`, and close the object. -/
def closeTruncated (s : String) : Option String :=
  let cs := s.data.dropWhile (fun x => x ≠ lbrace)
  match cs with
  | [] => none
  | _ :: _ =>
    let f1 := removeTruncTail cs
    let f2 := dropWhileRight (fun x => x = ',' || x = ' ' || x = '\t' || x = '\n') f1
    let f3 := if [rbrace].isSuffixOf f2 then f2 else f2 ++ [rbrace]
    some ⟨f3⟩

def firstSome {α : Type} : List (Option α) → Option α
  | [] => none
  | o :: rest =>
    match o with
    | some a => some a
    | none => firstSome rest

/-- Step 4 of the ladder for one candidate: extract a `{...}` substring and
try it raw, then normalised. -/
def extractStep (c : String) : Option (List (String × Json)) :=
  match extractBraces c.data with
  | some frag =>
    firstSome [keepTruthy (tryParseDict ⟨frag⟩), keepTruthy (tryParseDict (pyNormalise ⟨frag⟩))]
  | none => none

/-- Step 5 of the ladder for one candidate. -/
def truncStep (c : String) : Option (List (String × Json)) :=
  match closeTruncated c with
  | some frag => keepTruthy (tryParseDict frag)
  | none => none

/-- Model of `parse_filter_response`: the layered repair ladder, in source
order — direct parse, normalised parse, brace extraction over
`(text, normed)`, truncation repair over `(normed, text)`; `None` when all
steps fail. -/
def parse_filter_response (response_text : String) : Option (List (String × Json)) :=
  if response_text = "" then none
  else
    let text := pyStrip (stripFenceClose (stripFenceOpen (pyStrip response_text)))
    let normed := pyNormalise text
    firstSome
      [ keepTruthy (tryParseDict text)
      , keepTruthy (tryParseDict normed)
      , extractStep text
      , extractStep normed
      , truncStep normed
      , truncStep text ]

/-! ## Filter stage (`scripts/filter_content.py`)

The Groq client is abstracted as an oracle `Nat → ModelOutcome` giving the
outcome of the n-th API call; the prompt string does not influence any
observable modelled here.  Seconds are exact rationals. -/

def MIN_RELEVANCE_SCORE : ℚ := 6

def MIN_CONTENT_LENGTH : Nat := 50

/-- 4.5 seconds. -/
def RATE_LIMIT_DELAY : ℚ := 9 / 2

def MAX_RETRIES : Nat := 3

/-- Outcome of one model API call: the returned message content, or the
message of the raised exception. -/
inductive ModelOutcome where
  | ok (text : String) : ModelOutcome
  | err (msg : String) : ModelOutcome
deriving DecidableEq, Repr

/-- The dict built by `filter_article`; values are kept as the raw decoded
JSON values the code stores (Python is dynamically typed here). -/
structure FilterResult where
  is_approved : Json
  detected_language : Json
  relevance_score : Json
  filter_reason : Json
  category : Json
deriving DecidableEq, Repr

/-- The `default_result` dict of `filter_article`. -/
def defaultFilterResult : FilterResult :=
  { is_approved := Json.bool false
  , detected_language := Json.str "unknown"
  , relevance_score := Json.num 0
  , filter_reason := Json.str "Failed to analyze"
  , category := Json.str "general" }

/-- Numeric view used by `relevance_score >= MIN_RELEVANCE_SCORE`: Python
ints/floats compare numerically and `bool` is an int subclass; any other
type raises `TypeError` (modelled as `none`). -/
def jsonAsNumber : Json → Option ℚ
  | Json.num q => some q
  | Json.bool b => some (if b then 1 else 0)
  | _ => none

/-- Lines 267-276 of `filter_article`: build the returned dict from a parsed
record.  `none` models the `TypeError` raised by the `>=` comparison when
the record's `relevance_score` is non-numeric (caught by the retry loop). -/
def decisionOfRecord (r : List (String × Json)) : Option FilterResult :=
  let is_english := pyGet r "is_english" (Json.bool false)
  let scoreVal := pyGet r "relevance_score" (Json.num 0)
  match jsonAsNumber scoreVal with
  | none => none
  | some q =>
    let is_relevant := pyAnd (pyGet r "is_relevant" (Json.bool false))
                             (Json.bool (MIN_RELEVANCE_SCORE ≤ q))
    some
      { is_approved := pyAnd is_english is_relevant
      , detected_language := pyGet r "language" (Json.str "unknown")
      , relevance_score := scoreVal
      , filter_reason := pyGet r "reason" (Json.str "No reason provided")
      , category := pyGet r "category" (Json.str "general") }

/-- Stand-in for the Python `TypeError` text raised by the `>=` comparison;
no claim inspects this string. -/
def typeErrorMsg : String := "unorderable types in relevance comparison"

/-- State threaded through the retry loop of `filter_article`. -/
structure AttemptState where
  outcome : Option FilterResult
  calls : Nat
  sleeps : List ℚ
  lastError : Option String
deriving DecidableEq, Repr

/-- The `for attempt in range(1, MAX_RETRIES + 1)` loop of `filter_article`:
a successful API call is terminal (`break`) whether or not its text parses;
only a raised exception sleeps `RATE_LIMIT_DELAY` and retries. -/
def filterAttempts (f : Nat → ModelOutcome) : Nat → Nat → Option String → AttemptState
  | 0, calls, lastErr => { outcome := none, calls := calls, sleeps := [], lastError := lastErr }
  | n + 1, calls, lastErr =>
    match f calls with
    | ModelOutcome.ok text =>
      if text = "" then { outcome := none, calls := calls + 1, sleeps := [], lastError := lastErr }
      else
        match keepTruthy (parse_filter_response text) with
        | some r =>
          match decisionOfRecord r with
          | some d => { outcome := some d, calls := calls + 1, sleeps := [], lastError := lastErr }
          | none =>
            let p := filterAttempts f n (calls + 1) (some typeErrorMsg)
            { p with sleeps := RATE_LIMIT_DELAY :: p.sleeps }
        | none => { outcome := none, calls := calls + 1, sleeps := [], lastError := lastErr }
    | ModelOutcome.err m =>
      let p := filterAttempts f n (calls + 1) (some m)
      { p with sleeps := RATE_LIMIT_DELAY :: p.sleeps }

/-- Model of `filter_article(title, content, model_name)`: the returned dict
together with the number of API calls made and the sleeps performed inside
the function. -/
def filter_article (content : String) (f : Nat → ModelOutcome) : AttemptState :=
  if content = "" || (pyStrip content).length < MIN_CONTENT_LENGTH then
    { outcome := some { defaultFilterResult with filter_reason := Json.str "Content too short" }
    , calls := 0, sleeps := [], lastError := none }
  else
    let p := filterAttempts f MAX_RETRIES 0 none
    match p.outcome with
    | some _ => p
    | none =>
      match p.lastError with
      | some m =>
        { p with outcome := some { defaultFilterResult with
            filter_reason := Json.str ("API error: " ++ m.take 50) } }
      | none => { p with outcome := some defaultFilterResult }

/-- The returned dict of `filter_article` (always present: every path of the
source returns a dict). -/
def filterResultOf (content : String) (f : Nat → ModelOutcome) : FilterResult :=
  match (filter_article content f).outcome with
  | some d => d
  | none => defaultFilterResult

/-- Line 468 of `process_articles`: the pacing sleep after an article is
performed iff `filter_result['filter_reason'] != 'Content too short'`. -/
def rateDelayApplied (fr : FilterResult) : Bool :=
  !(fr.filter_reason = Json.str "Content too short")

/-! ### `_parse_retry_delay` (lines 215-236) -/

/-- Parse `\d+(?:\.\d+)?` at the head of the input: the numeric value and
the remaining characters.  Backtracking never helps: the character after a
digit run is not a digit, and a failed fractional part leaves a `.` which
can never satisfy what follows in the three source patterns. -/
def parseDecimalNum (cs : List Char) : Option (ℚ × List Char) :=
  let ds := cs.takeWhile isDigitChar
  if ds.isEmpty then none
  else
    let r1 := cs.drop ds.length
    match r1 with
    | c :: r2 =>
      if c = '.' then
        let fds := r2.takeWhile isDigitChar
        if fds.isEmpty then some ((digitsToNat ds : ℚ), r1)
        else
          some ((digitsToNat ds : ℚ) + (digitsToNat fds : ℚ) / ((10 : ℚ) ^ fds.length),
                r2.drop fds.length)
      else some ((digitsToNat ds : ℚ), r1)
    | [] => some ((digitsToNat ds : ℚ), r1)

/-- Match of `retry in (\d+(?:\.\d+)?)s` anchored at the head. -/
def tryRetrySAt (cs : List Char) : Option ℚ :=
  if "retry in ".data.isPrefixOf cs then
    match parseDecimalNum (cs.drop 9) with
    | some (q, rest) =>
      match rest.head? with
      | some c => if c = 's' then some q else none
      | none => none
    | none => none
  else none

/-- Match of `retry in (\d+(?:\.\d+)?)ms` anchored at the head. -/
def tryRetryMsAt (cs : List Char) : Option ℚ :=
  if "retry in ".data.isPrefixOf cs then
    match parseDecimalNum (cs.drop 9) with
    | some (q, rest) =>
      match rest with
      | 'm' :: 's' :: _ => some q
      | _ => none
    | none => none
  else none

/-- Match of `retryDelay['\"]:\s*['\"](\d+(?:\.\d+)?)s['\"]` anchored at the
head. -/
def tryRetryFieldAt (cs : List Char) : Option ℚ :=
  if "retryDelay".data.isPrefixOf cs then
    match cs.drop 10 with
    | q1 :: r1 =>
      if q1 = squote || q1 = dquote then
        match r1 with
        | ':' :: r2 =>
          match r2.dropWhile pyIsSpace with
          | q2 :: r4 =>
            if q2 = squote || q2 = dquote then
              match parseDecimalNum r4 with
              | some (v, rest) =>
                match rest with
                | 's' :: q3 :: _ => if q3 = squote || q3 = dquote then some v else none
                | _ => none
              | none => none
            else none
          | [] => none
        | _ => none
      else none
    | [] => none
  else none

/-- re.search: leftmost match of an anchored matcher. -/
def reSearch (m : List Char → Option ℚ) : List Char → Option ℚ
  | [] => none
  | c :: rest =>
    match m (c :: rest) with
    | some q => some q
    | none => reSearch m rest

/-- Model of `_parse_retry_delay`: the explicit rate-limit hint carried in
an error message, in seconds; `0` when no pattern matches.  This helper is
defined in the source but never called. -/
def parse_retry_delay (msg : String) : ℚ :=
  match reSearch tryRetrySAt msg.data with
  | some q => q
  | none =>
    match reSearch tryRetryMsAt msg.data with
    | some q => q / 1000
    | none =>
      match reSearch tryRetryFieldAt msg.data with
      | some q => q
      | none => 0

/-! ## Summarizer stage (`scripts/summarize_articles.py`)

Its own `MAX_RETRIES`/`RATE_LIMIT_DELAY` constants live in the `Summarize`
namespace.  The Gemini model is the same oracle type as the filter's. -/

namespace Summarize

def MAX_RETRIES : Nat := 3

/-- 1.1 seconds. -/
def RATE_LIMIT_DELAY : ℚ := 11 / 10

/-- Word-count band accepted by `generate_summary` (line 133). -/
def BAND_LO : Nat := 50

def BAND_HI : Nat := 75

/-- Lines 129-131: strip one pair of surrounding double quotes
(`summary.startswith('"') and summary.endswith('"')`, then `summary[1:-1]`;
for the one-character string `"` Python yields the empty string, as here). -/
def stripQuotes (s : String) : String :=
  if s.data.head? = some dquote && s.data.getLast? = some dquote then
    ⟨(s.data.drop 1).dropLast⟩
  else s

/-- The summary text the loop derives from a raw model response. -/
def processedSummary (text : String) : String :=
  stripQuotes (pyStrip text)

/-- The `for attempt in range(MAX_RETRIES)` loop of `generate_summary`: an
empty response or an out-of-band word count retries; an exception sleeps
and retries; an in-band summary is returned.  Second component: API calls
made. -/
def generateAttempts (f : Nat → ModelOutcome) : Nat → Nat → Option String × Nat
  | 0, calls => (none, calls)
  | n + 1, calls =>
    match f calls with
    | ModelOutcome.ok text =>
      if text = "" then generateAttempts f n (calls + 1)
      else
        let summary := processedSummary text
        let wc := count_words summary
        if BAND_LO ≤ wc ∧ wc ≤ BAND_HI then (some summary, calls + 1)
        else generateAttempts f n (calls + 1)
    | ModelOutcome.err _ => generateAttempts f n (calls + 1)

/-- Model of `generate_summary(model, title, content)`: `None` with no API
call when the content is missing/short; otherwise up to `MAX_RETRIES`
attempts. -/
def generate_summary (f : Nat → ModelOutcome) (content : String) : Option String × Nat :=
  if content = "" || (pyStrip content).length < 50 then (none, 0)
  else generateAttempts f MAX_RETRIES 0

/-- The article columns written by this stage. -/
structure Row where
  is_summarized : Bool
  summary_60 : Option String
  summary_generated_at : Option Int
deriving DecidableEq, Repr

/-- Model of `mark_article_skipped`: sets `is_summarized` and the timestamp
but writes no `summary_60`. -/
def mark_article_skipped (now : Int) (a : Row) : Row :=
  { a with is_summarized := true, summary_generated_at := some now }

/-- Model of `update_article_summary`. -/
def update_article_summary (now : Int) (s : String) (a : Row) : Row :=
  { a with summary_60 := some s, is_summarized := true, summary_generated_at := some now }

/-- One iteration of the `process_articles` loop body (lines 236-255): short
content or a failed generation marks the article skipped; a generated
summary is stored. -/
def processArticle (f : Nat → ModelOutcome) (now : Int) (content : String) (a : Row) : Row :=
  if content = "" || (pyStrip content).length < 100 then mark_article_skipped now a
  else
    match (generate_summary f content).1 with
    | some s => update_article_summary now s a
    | none => mark_article_skipped now a

end Summarize

/-! ## URL fingerprint (`create_url_hash`, `scripts/fetch_news.py` lines 49-68)

The SHA-256 digest is implemented in full (32-bit words as `Nat` with
explicit reduction mod `2^32`), so key equality and inequality are both
computed on the real hex digests. -/

def trackingParams : List String := ["utm_source", "utm_medium", "utm_campaign", "ref", "source"]

/-- Compiled `re.sub(rf'[?&]{p}=[^&]*', '', s)` for one tracking parameter
`p`: an anchor `?`/`&`, the literal `p=`, then a maximal `&`-free value. -/
def subTrackingAux (p : List Char) : Nat → List Char → List Char
  | 0, cs => cs
  | _ + 1, [] => []
  | fuel + 1, c :: rest =>
    if (c = '?' || c = '&') && (p ++ ['=']).isPrefixOf rest then
      let r1 := rest.drop (p.length + 1)
      subTrackingAux p fuel (r1.drop (r1.takeWhile (fun x => x ≠ '&')).length)
    else c :: subTrackingAux p fuel rest

def subTracking (p : String) (cs : List Char) : List Char :=
  subTrackingAux p.data (cs.length + 1) cs

/-- Compiled `re.sub(r'\?&', '?', s)`. -/
def subQAmp : List Char → List Char
  | [] => []
  | '?' :: '&' :: r2 => '?' :: subQAmp r2
  | c :: rest => c :: subQAmp rest

/-- Compiled `re.sub(r'\?$', '', s)`: remove a question mark at the end of
the string (or before a lone final newline). -/
def subQEnd (cs : List Char) : List Char :=
  match cs.reverse with
  | '?' :: r => r.reverse
  | '\n' :: '?' :: r => ('\n' :: r).reverse
  | _ => cs

/-- The normalized URL string `create_url_hash` feeds to SHA-256:
`url.lower().strip().rstrip('/')`, tracking-parameter removal in list
order, then the `?&` and trailing-`?` cleanups. -/
def normalized_url (url : String) : String :=
  let n1 := (pyRstrip ['/'] (pyStrip (pyLower url))).data
  let n2 := trackingParams.foldl (fun cs p => subTracking p cs) n1
  ⟨subQEnd (subQAmp n2)⟩

/-- UTF-8 encoding of one character (`str.encode()`). -/
def charUtf8 (c : Char) : List Nat :=
  let n := c.toNat
  if n < 128 then [n]
  else if n < 2048 then [192 + n / 64, 128 + n % 64]
  else if n < 65536 then [224 + n / 4096, 128 + (n / 64) % 64, 128 + n % 64]
  else [240 + n / 262144, 128 + (n / 4096) % 64, 128 + (n / 64) % 64, 128 + n % 64]

def utf8Bytes (s : String) : List Nat :=
  (s.data.map charUtf8).flatten

/-! ### SHA-256 -/

def u32 (n : Nat) : Nat := n % 4294967296

def bnot32 (x : Nat) : Nat := 4294967295 ^^^ x

def rotr (n x : Nat) : Nat := u32 ((x >>> n) ||| (x <<< (32 - n)))

def sha256K : List Nat :=
  [ 1116352408, 1899447441, 3049323471, 3921009573, 961987163, 1508970993
  , 2453635748, 2870763221, 3624381080, 310598401, 607225278, 1426881987
  , 1925078388, 2162078206, 2614888103, 3248222580, 3835390401, 4022224774
  , 264347078, 604807628, 770255983, 1249150122, 1555081692, 1996064986
  , 2554220882, 2821834349, 2952996808, 3210313671, 3336571891, 3584528711
  , 113926993, 338241895, 666307205, 773529912, 1294757372, 1396182291
  , 1695183700, 1986661051, 2177026350, 2456956037, 2730485921, 2820302411
  , 3259730800, 3345764771, 3516065817, 3600352804, 4094571909, 275423344
  , 430227734, 506948616, 659060556, 883997877, 958139571, 1322822218
  , 1537002063, 1747873779, 1955562222, 2024104815, 2227730452, 2361852424
  , 2428436474, 2756734187, 3204031479, 3329325298 ]

def sha256H0 : List Nat :=
  [ 1779033703, 3144134277, 1013904242, 2773480762
  , 1359893119, 2600822924, 528734635, 1541459225 ]

/-- Big-endian byte decomposition of a value into `k` bytes. -/
def beBytes (k v : Nat) : List Nat :=
  (List.range k).map (fun i => (v >>> (8 * (k - 1 - i))) % 256)

/-- Append the 0x80 byte, zero padding to 56 mod 64, and the 64-bit
big-endian bit length. -/
def sha256Pad (msg : List Nat) : List Nat :=
  let padZeros := (119 - msg.length % 64) % 64
  msg ++ (128 :: List.replicate padZeros 0) ++ beBytes 8 (8 * msg.length)

def toBlocksAux : Nat → List Nat → List (List Nat)
  | 0, _ => []
  | _ + 1, [] => []
  | fuel + 1, l => l.take 64 :: toBlocksAux fuel (l.drop 64)

def toBlocks (l : List Nat) : List (List Nat) :=
  toBlocksAux (l.length + 1) l

/-- The 16 initial 32-bit big-endian words of a 64-byte block. -/
def blockWords (b : List Nat) : List Nat :=
  (List.range 16).map (fun i =>
    ((b.getD (4 * i) 0 * 256 + b.getD (4 * i + 1) 0) * 256 + b.getD (4 * i + 2) 0) * 256
      + b.getD (4 * i + 3) 0)

def ssig0 (x : Nat) : Nat := rotr 7 x ^^^ rotr 18 x ^^^ (x >>> 3)

def ssig1 (x : Nat) : Nat := rotr 17 x ^^^ rotr 19 x ^^^ (x >>> 10)

def bsig0 (x : Nat) : Nat := rotr 2 x ^^^ rotr 13 x ^^^ rotr 22 x

def bsig1 (x : Nat) : Nat := rotr 6 x ^^^ rotr 11 x ^^^ rotr 25 x

/-- Message schedule: extend 16 words to 64. -/
def sha256Schedule (w16 : List Nat) : List Nat :=
  (List.range 48).foldl
    (fun w _ =>
      let n := w.length
      w ++ [u32 (ssig1 (w.getD (n - 2) 0) + w.getD (n - 7) 0
                  + ssig0 (w.getD (n - 15) 0) + w.getD (n - 16) 0)])
    w16

def sha256Compress (h : List Nat) (block : List Nat) : List Nat :=
  let w := sha256Schedule (blockWords block)
  let st :=
    (List.range 64).foldl
      (fun st i =>
        match st with
        | (a, b, c, d, e, f, g, hh) =>
          let ch := (e &&& f) ^^^ (bnot32 e &&& g)
          let maj := (a &&& b) ^^^ (a &&& c) ^^^ (b &&& c)
          let t1 := u32 (hh + bsig1 e + ch + sha256K.getD i 0 + w.getD i 0)
          let t2 := u32 (bsig0 a + maj)
          (u32 (t1 + t2), a, b, c, u32 (d + t1), e, f, g))
      (h.getD 0 0, h.getD 1 0, h.getD 2 0, h.getD 3 0,
       h.getD 4 0, h.getD 5 0, h.getD 6 0, h.getD 7 0)
  match st with
  | (a, b, c, d, e, f, g, hh) =>
    [ u32 (h.getD 0 0 + a), u32 (h.getD 1 0 + b), u32 (h.getD 2 0 + c), u32 (h.getD 3 0 + d)
    , u32 (h.getD 4 0 + e), u32 (h.getD 5 0 + f), u32 (h.getD 6 0 + g), u32 (h.getD 7 0 + hh) ]

def sha256Words (msg : List Nat) : List Nat :=
  (toBlocks (sha256Pad msg)).foldl sha256Compress sha256H0

def hexChar (n : Nat) : Char :=
  if n < 10 then Char.ofNat (48 + n) else Char.ofNat (87 + n)

/-- Lowercase hex digest (`hashlib.sha256(...).hexdigest()`). -/
def sha256hex (msg : List Nat) : String :=
  ⟨((sha256Words msg).map (fun v => (beBytes 4 v).map
      (fun b => [hexChar (b / 16), hexChar (b % 16)]))).flatten.flatten⟩

/-- Model of `create_url_hash`: SHA-256 hex digest of the normalized URL. -/
def create_url_hash (url : String) : String :=
  sha256hex (utf8Bytes (normalized_url url))

/-! ## Retention manager (`scripts/purge_data.py`)

The article store is a `List Article`; deletes are hard deletes (rows
removed), matching `client.table('articles').delete()`.  Timestamps are
integers; the age cutoff `now - MAX_ARTICLE_AGE_DAYS` is a parameter.
PostgREST semantics used by the embedding:
`lt` on a NULL column is false; `.order(col, desc=False)` is Postgres
`ORDER BY col ASC`, whose default null placement is `NULLS LAST`
(nulls sort as largest, i.e. newest). -/

/-- `config.MAX_ARTICLES_COUNT` (`scripts/config.py` line 35). -/
def MAX_ARTICLES_COUNT : Nat := 1000

structure Article where
  id : Nat
  published_at : Option Int
  created_at : Int
  fetched_at : Int
  is_deleted : Bool
deriving DecidableEq, Repr

/-- The phase-1 row filter (lines 86 and 101):
`published_at.lt.cutoff OR (published_at.is.null AND created_at.lt.cutoff)`.
Note: the fallback column is `created_at`, and there is no `is_deleted`
condition. -/
def ageMatch (cutoff : Int) (a : Article) : Bool :=
  (match a.published_at with
   | some p => decide (p < cutoff)
   | none => false)
  || (a.published_at = none && decide (a.created_at < cutoff))

/-- `delete().in_('id', ids)`: remove every row whose id is listed. -/
def deleteByIds (ids : List Nat) (s : List Article) : List Article :=
  s.filter (fun a => !(ids.contains a.id))

/-- The count query `select('id', count='exact').eq('is_deleted', False)`. -/
def countNonDeleted (s : List Article) : Nat :=
  (s.filter (fun a => !a.is_deleted)).length

/-- The batched deletion loop of phase 1 (lines 97-122): select up to 100
matching ids, delete them, stop when no rows match or when the safety
check `total_deleted >= old_article_count + 100` fires.  Fueled; each
iteration with a non-empty batch removes at least one row, so fuel
`length + 1` never runs out. -/
def phase1Loop (cutoff : Int) (oldCount : Nat) : Nat → List Article → Nat → List Article × Nat
  | 0, s, total => (s, total)
  | fuel + 1, s, total =>
    let batch := (s.filter (ageMatch cutoff)).take 100
    if batch.isEmpty then (s, total)
    else
      let ids := batch.map (fun a => a.id)
      let s2 := deleteByIds ids s
      let total2 := total + ids.length
      if oldCount + 100 ≤ total2 then (s2, total2)
      else phase1Loop cutoff oldCount fuel s2 total2

/-- Phase 1 of `purge_old_articles` (lines 82-131): count the matching rows,
and if any, run the batched deletion loop.  Returns the store and
`deleted_by_age`. -/
def purgePhase1 (cutoff : Int) (s : List Article) : List Article × Nat :=
  let oldCount := (s.filter (ageMatch cutoff)).length
  if 0 < oldCount then phase1Loop cutoff oldCount (s.length + 1) s 0
  else (s, 0)

/-- The phase-2 ordering
`.order('published_at', desc=False).order('created_at', desc=False)`:
`published_at` ascending with NULLS LAST (Postgres default for ASC),
then `created_at` ascending. -/
def oldestLE (a b : Article) : Bool :=
  match a.published_at, b.published_at with
  | some p, some q => decide (p < q) || (decide (p = q) && decide (a.created_at ≤ b.created_at))
  | some _, none => true
  | none, some _ => false
  | none, none => decide (a.created_at ≤ b.created_at)

/-- The sorted view the phase-2 `select ... order ... limit` query reads. -/
def sortOldest (l : List Article) : List Article :=
  l.insertionSort (fun a b => oldestLE a b = true)

/-- Phase 2 of `purge_old_articles` (lines 137-176): re-count non-deleted
rows; when over `MAX_ARTICLES_COUNT`, delete the excess-many oldest
non-deleted rows.  Returns the store and `deleted_by_count`. -/
def purgePhase2 (s : List Article) : List Article × Nat :=
  let current := countNonDeleted s
  if MAX_ARTICLES_COUNT < current then
    let excess := current - MAX_ARTICLES_COUNT
    let oldest := (sortOldest (s.filter (fun a => !a.is_deleted))).take excess
    if oldest.isEmpty then (s, 0)
    else
      let ids := oldest.map (fun a => a.id)
      (deleteByIds ids s, ids.length)
  else (s, 0)

structure PurgeReport where
  store : List Article
  deleted_by_age : Nat
  deleted_by_count : Nat
  remaining : Nat
  phase2Ran : Bool
  raised : Bool
deriving DecidableEq, Repr

/-- Model of `purge_old_articles`.  A phase-1 store failure is re-raised by
the `except` block at lines 129-131, so the function aborts before phase 2;
the failure is modelled as occurring at the phase-1 count query, leaving
the store unchanged.  `raised` records the escaped exception. -/
def purge_old_articles (phase1Fails : Bool) (cutoff : Int) (s : List Article) : PurgeReport :=
  if phase1Fails then
    { store := s, deleted_by_age := 0, deleted_by_count := 0, remaining := 0
    , phase2Ran := false, raised := true }
  else
    let p1 := purgePhase1 cutoff s
    let p2 := purgePhase2 p1.1
    { store := p2.1, deleted_by_age := p1.2, deleted_by_count := p2.2
    , remaining := countNonDeleted p2.1, phase2Ran := true, raised := false }

structure RunTrace where
  articlePurgeFailed : Bool
  phase2Ran : Bool
  logPurgeRan : Bool
  metricsPurgeRan : Bool
  store : List Article
deriving DecidableEq, Repr

/-- Model of `main` (lines 334-353): the call to `purge_old_articles` is
wrapped in try/except, so an escaped phase-1 exception is logged and the
run continues with the fetch-log and storage-metric purges. -/
def purgeMain (phase1Fails : Bool) (cutoff : Int) (s : List Article) : RunTrace :=
  let r := purge_old_articles phase1Fails cutoff s
  { articlePurgeFailed := r.raised, phase2Ran := r.phase2Ran
  , logPurgeRan := true, metricsPurgeRan := true, store := r.store }

/-! ## Lemmas about the interpreter ladder -/

theorem keepTruthy_ne_nil {o : Option (List (String × Json))} {r : List (String × Json)}
    (h : keepTruthy o = some r) : r ≠ [] := by
  cases o with
  | none => simp [keepTruthy] at h
  | some l =>
    simp only [keepTruthy] at h
    split at h
    · exact absurd h (by simp)
    · next hne =>
      cases h
      simpa [List.isEmpty_iff] using hne

theorem firstSome_eq_some {α : Type} :
    ∀ {xs : List (Option α)} {r : α}, firstSome xs = some r → some r ∈ xs := by
  intro xs
  induction xs with
  | nil => intro r h; simp [firstSome] at h
  | cons o rest ih =>
    intro r h
    cases o with
    | some a =>
      simp only [firstSome] at h
      cases h
      exact List.mem_cons_self _ _
    | none =>
      simp only [firstSome] at h
      exact List.mem_cons_of_mem _ (ih h)

theorem extractStep_ne_nil {c : String} {r : List (String × Json)}
    (h : extractStep c = some r) : r ≠ [] := by
  unfold extractStep at h
  split at h
  · have hm := firstSome_eq_some h
    simp only [List.mem_cons, List.not_mem_nil, or_false] at hm
    rcases hm with hm | hm
    · exact keepTruthy_ne_nil hm.symm
    · exact keepTruthy_ne_nil hm.symm
  · exact absurd h (by simp)

theorem truncStep_ne_nil {c : String} {r : List (String × Json)}
    (h : truncStep c = some r) : r ≠ [] := by
  unfold truncStep at h
  split at h
  · exact keepTruthy_ne_nil h
  · exact absurd h (by simp)

/-! ## Claim theorems -/

/-- C10: whenever the recovered JSON parse of the input is the empty object
or a non-object value, `parse_filter_response` returns `None` (every listed
input is valid strict JSON yet rejected), and a successful result is always
a non-empty object: every returned member list is non-empty. -/
theorem C10_parse_failure_on_empty_or_non_object :
    (∀ (s : String) (r : List (String × Json)), parse_filter_response s = some r → r ≠ []) ∧
    parse_filter_response "\x7b\x7d" = none ∧
    parse_filter_response "[1, 2]" = none ∧
    parse_filter_response "\"text\"" = none ∧
    parse_filter_response "42" = none ∧
    parse_filter_response "true" = none ∧
    parse_filter_response "null" = none := by
  refine ⟨?_, by decide, by decide, by decide, by decide, by decide, by decide⟩
  intro s r h
  unfold parse_filter_response at h
  split at h
  · exact absurd h (by simp)
  · have hm := firstSome_eq_some h
    simp only [List.mem_cons, List.not_mem_nil, or_false] at hm
    rcases hm with hm | hm | hm | hm | hm | hm
    · exact keepTruthy_ne_nil hm.symm
    · exact keepTruthy_ne_nil hm.symm
    · exact extractStep_ne_nil hm.symm
    · exact extractStep_ne_nil hm.symm
    · exact truncStep_ne_nil hm.symm
    · exact truncStep_ne_nil hm.symm

/-- C10 witness: a concrete successful parse, non-empty by the theorem. -/
theorem C10_parse_failure_on_empty_or_non_object_witness :
    ([("language", Json.str "en")] : List (String × Json)) ≠ [] :=
  C10_parse_failure_on_empty_or_non_object.1 "\x7b\"language\": \"en\"\x7d"
    [("language", Json.str "en")] (by decide)

/-- Strict-JSON input for C2. -/
def c2Strict : String :=
  "\x7b\"language\": \"en\", \"is_english\": true, \"relevance_score\": 8, \"is_relevant\": true, \"category\": \"general\", \"reason\": \"ok\"\x7d"

/-- The strict input wrapped in a markdown code fence. -/
def c2Fenced : String :=
  "```json\n\x7b\"language\": \"en\", \"is_english\": true, \"relevance_score\": 8, \"is_relevant\": true, \"category\": \"general\", \"reason\": \"ok\"\x7d\n```"

/-- Python-literal input: single quotes and `True`. -/
def c2Python : String :=
  "\x7b'language': 'en', 'is_english': True, 'relevance_score': 7, 'is_relevant': True, 'category': 'general', 'reason': 'ok'\x7d"

/-- Input truncated before its final value. -/
def c2Truncated : String :=
  "\x7b\"language\": \"en\", \"is_english\": true, \"relevance_score\": 9, \"is_relevant\": true, \"category\": \"general\", \"reason\": \"truncat"

/-- The spec's scenario: fenced Python-literal object with `language: en`
and `relevance_score: 9`. -/
def c2Scenario : String :=
  "```json\n\x7b'language': 'en', 'is_english': True, 'relevance_score': 9, 'is_relevant': True, 'category': 'general', 'reason': 'good'\x7d\n```"

set_option maxRecDepth 8000

/-- C2: the interpreter recovers a decision record from strict JSON, fenced
JSON, Python-literal notation, and a truncated object; the spec's fenced
Python-literal scenario yields a record with language `"en"` and relevance
score `9`; and garbage with no recoverable object yields `None`. -/
theorem C2_interpreter_recovers_all_shapes :
    parse_filter_response c2Strict =
      some [("language", Json.str "en"), ("is_english", Json.bool true),
            ("relevance_score", Json.num 8), ("is_relevant", Json.bool true),
            ("category", Json.str "general"), ("reason", Json.str "ok")] ∧
    parse_filter_response c2Fenced =
      some [("language", Json.str "en"), ("is_english", Json.bool true),
            ("relevance_score", Json.num 8), ("is_relevant", Json.bool true),
            ("category", Json.str "general"), ("reason", Json.str "ok")] ∧
    parse_filter_response c2Python =
      some [("language", Json.str "en"), ("is_english", Json.bool true),
            ("relevance_score", Json.num 7), ("is_relevant", Json.bool true),
            ("category", Json.str "general"), ("reason", Json.str "ok")] ∧
    parse_filter_response c2Truncated =
      some [("language", Json.str "en"), ("is_english", Json.bool true),
            ("relevance_score", Json.num 9), ("is_relevant", Json.bool true),
            ("category", Json.str "general")] ∧
    (∃ r, parse_filter_response c2Scenario = some r ∧
      pyGet r "language" (Json.str "unknown") = Json.str "en" ∧
      pyGet r "relevance_score" (Json.num 0) = Json.num 9) ∧
    parse_filter_response "no recoverable object here" = none := by
  refine ⟨by decide, by decide, by decide, by decide, ?_, by decide⟩
  exact ⟨[("language", Json.str "en"), ("is_english", Json.bool true),
    ("relevance_score", Json.num 9), ("is_relevant", Json.bool true),
    ("category", Json.str "general"), ("reason", Json.str "good")],
    by decide, by decide, by decide⟩

theorem pyTruthy_pyAnd (a b : Json) : pyTruthy (pyAnd a b) = (pyTruthy a && pyTruthy b) := by
  unfold pyAnd
  by_cases h : pyTruthy a = true
  · simp [h]
  · simp [Bool.not_eq_true] at h
    simp [h]

/-- C3 (amended): for every validly parsed decision record whose
`relevance_score` is numeric, the filter's approval is truthy exactly when
the record's `is_english` flag and `is_relevant` flag are truthy and the
score is at least `MIN_RELEVANCE_SCORE`; in particular any score below 6
forces rejection.  (The original claim's clause about `detected_language`
is refuted by `C3_language_counterexample`: approval uses the model's
`is_english` flag, not the language code.) -/
theorem C3_approval_rule (r : List (String × Json)) (d : FilterResult)
    (h : decisionOfRecord r = some d) :
    ∃ q : ℚ, jsonAsNumber (pyGet r "relevance_score" (Json.num 0)) = some q ∧
      pyTruthy d.is_approved =
        (pyTruthy (pyGet r "is_english" (Json.bool false)) &&
         (pyTruthy (pyGet r "is_relevant" (Json.bool false)) &&
          decide (MIN_RELEVANCE_SCORE ≤ q))) ∧
      (q < MIN_RELEVANCE_SCORE → pyTruthy d.is_approved = false) := by
  simp only [decisionOfRecord] at h
  cases hq : jsonAsNumber (pyGet r "relevance_score" (Json.num 0)) with
  | none => rw [hq] at h; simp at h
  | some q =>
    rw [hq] at h
    simp only [Option.some.injEq] at h
    subst h
    refine ⟨q, rfl, ?_, ?_⟩
    · rw [pyTruthy_pyAnd, pyTruthy_pyAnd]
      rfl
    · intro hlt
      have hd : decide (MIN_RELEVANCE_SCORE ≤ q) = false := by
        simp [not_le.mpr hlt]
      rw [hd, pyTruthy_pyAnd, pyTruthy_pyAnd]
      simp [pyTruthy]

/-- Record for the C3 witness: flags set, score 9. -/
def c3wRec : List (String × Json) :=
  [("is_english", Json.bool true), ("is_relevant", Json.bool true),
   ("relevance_score", Json.num 9)]

/-- The decision `decisionOfRecord` produces for `c3wRec`. -/
def c3wDec : FilterResult :=
  { is_approved := Json.bool true
  , detected_language := Json.str "unknown"
  , relevance_score := Json.num 9
  , filter_reason := Json.str "No reason provided"
  , category := Json.str "general" }

/-- C3 witness: the amended rule instantiated at a concrete record. -/
theorem C3_approval_rule_witness :
    ∃ q : ℚ, jsonAsNumber (pyGet c3wRec "relevance_score" (Json.num 0)) = some q ∧
      pyTruthy c3wDec.is_approved =
        (pyTruthy (pyGet c3wRec "is_english" (Json.bool false)) &&
         (pyTruthy (pyGet c3wRec "is_relevant" (Json.bool false)) &&
          decide (MIN_RELEVANCE_SCORE ≤ q))) ∧
      (q < MIN_RELEVANCE_SCORE → pyTruthy c3wDec.is_approved = false) :=
  C3_approval_rule c3wRec c3wDec (by decide)

/-- Content long enough to pass the minimum-length check. -/
def longContent : String := String.mk (List.replicate 60 'a')

/-- A well-formed model response whose language code is `fr` while the
`is_english` flag is `true`. -/
def c3FrenchText : String :=
  "\x7b\"language\": \"fr\", \"is_english\": true, \"is_relevant\": true, \"relevance_score\": 9\x7d"

/-- C3 counterexample: run end to end, a record with `detected_language`
`"fr"` (not `"en"`) is nevertheless approved, refuting the claim that
`is_approved` is false whenever the detected language is not `"en"` (and
with it the claimed equivalence). -/
theorem C3_language_counterexample :
    (filterResultOf longContent (fun _ => ModelOutcome.ok c3FrenchText)).detected_language
        = Json.str "fr" ∧
    (filterResultOf longContent (fun _ => ModelOutcome.ok c3FrenchText)).detected_language
        ≠ Json.str "en" ∧
    pyTruthy (filterResultOf longContent (fun _ => ModelOutcome.ok c3FrenchText)).is_approved
        = true := by
  refine ⟨by decide, by decide, by decide⟩

theorem pyStrip_length_le (s : String) : (pyStrip s).length ≤ s.length := by
  have h1 : (dropWhileRight pyIsSpace (s.data.dropWhile pyIsSpace)).length
      ≤ (s.data.dropWhile pyIsSpace).length := by
    unfold dropWhileRight
    calc ((s.data.dropWhile pyIsSpace).reverse.dropWhile pyIsSpace).reverse.length
        = ((s.data.dropWhile pyIsSpace).reverse.dropWhile pyIsSpace).length := by
          rw [List.length_reverse]
      _ ≤ (s.data.dropWhile pyIsSpace).reverse.length :=
          List.Sublist.length_le (List.dropWhile_sublist _)
      _ = (s.data.dropWhile pyIsSpace).length := by rw [List.length_reverse]
  have h2 : (s.data.dropWhile pyIsSpace).length ≤ s.data.length :=
    List.Sublist.length_le (List.dropWhile_sublist _)
  exact le_trans h1 h2

/-- C7: an article whose text is shorter than `MIN_CONTENT_LENGTH` (50) gets
the fixed "Content too short" rejection, with zero model calls, no sleeps
inside `filter_article`, and no pacing delay afterwards in
`process_articles`. -/
theorem C7_short_content_short_circuit (content : String) (f : Nat → ModelOutcome)
    (h : content.length < MIN_CONTENT_LENGTH) :
    filter_article content f =
      { outcome := some { defaultFilterResult with filter_reason := Json.str "Content too short" }
      , calls := 0, sleeps := [], lastError := none } ∧
    rateDelayApplied (filterResultOf content f) = false := by
  have hlt : (pyStrip content).length < MIN_CONTENT_LENGTH :=
    lt_of_le_of_lt (pyStrip_length_le content) h
  have harticle : filter_article content f =
      { outcome := some { defaultFilterResult with filter_reason := Json.str "Content too short" }
      , calls := 0, sleeps := [], lastError := none } := by
    unfold filter_article
    simp [hlt]
  refine ⟨harticle, ?_⟩
  unfold filterResultOf
  rw [harticle]
  decide

/-- C7 witness: a 30-character article. -/
theorem C7_short_content_short_circuit_witness :
    filter_article (String.mk (List.replicate 30 'x')) (fun _ => ModelOutcome.ok "") =
      { outcome := some { defaultFilterResult with filter_reason := Json.str "Content too short" }
      , calls := 0, sleeps := [], lastError := none } ∧
    rateDelayApplied (filterResultOf (String.mk (List.replicate 30 'x'))
      (fun _ => ModelOutcome.ok "")) = false :=
  C7_short_content_short_circuit (String.mk (List.replicate 30 'x'))
    (fun _ => ModelOutcome.ok "") (by decide)

/-- A 429 error message carrying an explicit retry hint. -/
def c8Msg : String :=
  "Error code: 429 - Rate limit reached. Please retry in 21.948799732s."

/-- C8: `_parse_retry_delay` does extract the hinted durations from all
three documented formats, but `filter_article` never calls it: on a failure
whose message hints 21.948799732 s, every one of the three retry sleeps is
the fixed `RATE_LIMIT_DELAY` (4.5 s), not the hint. -/
theorem C8_retry_hint_never_used :
    parse_retry_delay c8Msg = 21948799732 / 1000000000 ∧
    parse_retry_delay "Please retry in 442.116389ms." = 442116389 / 1000000000 ∧
    parse_retry_delay "'retryDelay': '21s'" = 21 ∧
    parse_retry_delay c8Msg ≠ RATE_LIMIT_DELAY ∧
    (filter_article longContent (fun _ => ModelOutcome.err c8Msg)).sleeps =
      [RATE_LIMIT_DELAY, RATE_LIMIT_DELAY, RATE_LIMIT_DELAY] ∧
    (filter_article longContent (fun _ => ModelOutcome.err c8Msg)).calls = MAX_RETRIES := by
  refine ⟨by decide, by decide, by decide, by decide, by decide, by decide⟩

theorem generateAttempts_sound (f : Nat → ModelOutcome) :
    ∀ (n calls : Nat) (s : String),
      (Summarize.generateAttempts f n calls).1 = some s →
      Summarize.BAND_LO ≤ count_words s ∧ count_words s ≤ Summarize.BAND_HI := by
  intro n
  induction n with
  | zero => intro calls s h; simp [Summarize.generateAttempts] at h
  | succ n ih =>
    intro calls s h
    simp only [Summarize.generateAttempts] at h
    cases hf : f calls with
    | ok text =>
      rw [hf] at h
      by_cases he : text = ""
      · simp only [he, if_pos rfl] at h
        exact ih _ _ h
      · simp only [if_neg he] at h
        split at h
        · next hband =>
          simp only [Option.some.injEq] at h
          subst h
          exact hband
        · exact ih _ _ h
    | err m =>
      rw [hf] at h
      exact ih _ _ h

theorem generateAttempts_const_out {t : String} (ht : t ≠ "")
    (hb : ¬(Summarize.BAND_LO ≤ count_words (Summarize.processedSummary t) ∧
            count_words (Summarize.processedSummary t) ≤ Summarize.BAND_HI)) :
    ∀ (n calls : Nat),
      Summarize.generateAttempts (fun _ => ModelOutcome.ok t) n calls = (none, calls + n) := by
  intro n
  induction n with
  | zero => intro calls; simp [Summarize.generateAttempts]
  | succ n ih =>
    intro calls
    simp only [Summarize.generateAttempts, if_neg ht, if_neg hb, ih]
    simp only [Prod.mk.injEq, true_and]
    omega

theorem generateAttempts_const_in {t : String} (ht : t ≠ "")
    (hb : Summarize.BAND_LO ≤ count_words (Summarize.processedSummary t) ∧
          count_words (Summarize.processedSummary t) ≤ Summarize.BAND_HI) :
    ∀ (n calls : Nat),
      Summarize.generateAttempts (fun _ => ModelOutcome.ok t) (n + 1) calls =
        (some (Summarize.processedSummary t), calls + 1) := by
  intro n calls
  simp only [Summarize.generateAttempts, if_neg ht, if_pos hb]

/-- C9: (i) every summary `generate_summary` accepts has a word count inside
the 50–75 retry band; (ii) for a model that always returns the same
response, an in-band response is accepted on the first call and an
out-of-band response is retried `MAX_RETRIES` (3) times and then given up
on; (iii) whenever generation fails, the processing loop marks the article
summarized (skipped) and stores no `summary_60` text. -/
theorem C9_summary_band :
    (∀ (f : Nat → ModelOutcome) (content s : String),
        (Summarize.generate_summary f content).1 = some s →
        Summarize.BAND_LO ≤ count_words s ∧ count_words s ≤ Summarize.BAND_HI) ∧
    (∀ (content t : String), content ≠ "" → 50 ≤ (pyStrip content).length → t ≠ "" →
        (Summarize.BAND_LO ≤ count_words (Summarize.processedSummary t) ∧
            count_words (Summarize.processedSummary t) ≤ Summarize.BAND_HI →
          Summarize.generate_summary (fun _ => ModelOutcome.ok t) content =
            (some (Summarize.processedSummary t), 1)) ∧
        (¬(Summarize.BAND_LO ≤ count_words (Summarize.processedSummary t) ∧
            count_words (Summarize.processedSummary t) ≤ Summarize.BAND_HI) →
          Summarize.generate_summary (fun _ => ModelOutcome.ok t) content =
            (none, Summarize.MAX_RETRIES))) ∧
    (∀ (f : Nat → ModelOutcome) (now : Int) (content : String) (a : Summarize.Row),
        (Summarize.generate_summary f content).1 = none →
        (Summarize.processArticle f now content a).summary_60 = a.summary_60 ∧
        (Summarize.processArticle f now content a).is_summarized = true) := by
  refine ⟨?_, ?_, ?_⟩
  · intro f content s h
    unfold Summarize.generate_summary at h
    split at h
    · exact absurd h (by simp)
    · exact generateAttempts_sound f _ _ _ h
  · intro content t hc1 hc2 ht
    have hcond : ¬(content = "" || decide ((pyStrip content).length < 50)) = true := by
      simp [hc1, not_lt.mpr hc2]
    constructor
    · intro hb
      unfold Summarize.generate_summary
      rw [if_neg hcond]
      simpa [Summarize.MAX_RETRIES] using generateAttempts_const_in ht hb 2 0
    · intro hb
      unfold Summarize.generate_summary
      rw [if_neg hcond]
      simpa [Summarize.MAX_RETRIES] using generateAttempts_const_out ht hb 3 0
  · intro f now content a hgen
    unfold Summarize.processArticle
    split
    · exact ⟨rfl, rfl⟩
    · rw [hgen]
      exact ⟨rfl, rfl⟩

/-- A 42-word model response. -/
def w42 : String := String.intercalate " " (List.replicate 42 "lorem")

/-- Content long enough for the summarizer's 100-character check. -/
def contentLong : String := String.mk (List.replicate 120 'b')

/-- An article row before summarization. -/
def row0 : Summarize.Row :=
  { is_summarized := false, summary_60 := none, summary_generated_at := none }

/-- C9 witness: a 42-word response is out of band, gets retried 3 times and
given up on, and the article is marked skipped with no summary stored. -/
theorem C9_summary_band_witness :
    Summarize.generate_summary (fun _ => ModelOutcome.ok w42) contentLong =
      (none, Summarize.MAX_RETRIES) ∧
    (Summarize.processArticle (fun _ => ModelOutcome.ok w42) 0 contentLong row0).summary_60
      = none ∧
    (Summarize.processArticle (fun _ => ModelOutcome.ok w42) 0 contentLong row0).is_summarized
      = true := by
  have h1 := (C9_summary_band.2.1 contentLong w42 (by decide) (by decide) (by decide)).2
    (by decide)
  have h3 := C9_summary_band.2.2 (fun _ => ModelOutcome.ok w42) 0 contentLong row0
    (by rw [h1])
  exact ⟨h1, h3.1, h3.2⟩

/-! ## Lemmas about URL normalization -/

/-- Characters that can anchor a tracking-parameter match. -/
def noQueryChars (l : List Char) : Bool :=
  l.all (fun c => !(c = '?' || c = '&'))

theorem noQueryChars_forall {l : List Char} (h : noQueryChars l = true) :
    ∀ c ∈ l, c ≠ '?' ∧ c ≠ '&' := by
  intro c hc
  have := List.all_eq_true.mp h c hc
  constructor <;> intro he <;> subst he <;> simp at this

theorem subTrackingAux_clean (p : List Char) :
    ∀ (fuel : Nat) (l : List Char), (∀ c ∈ l, c ≠ '?' ∧ c ≠ '&') → l.length < fuel →
      subTrackingAux p fuel l = l := by
  intro fuel
  induction fuel with
  | zero => intro l _ h; omega
  | succ fuel ih =>
    intro l hl hlen
    cases l with
    | nil => rfl
    | cons c rest =>
      have hc := hl c (List.mem_cons_self _ _)
      simp only [subTrackingAux, hc.1, hc.2, decide_False, Bool.false_or, Bool.or_self,
        Bool.false_and, if_false]
      rw [ih rest (fun x hx => hl x (List.mem_cons_of_mem _ hx))
        (by simpa using Nat.lt_of_succ_lt_succ hlen)]
      simp

theorem subTrackingAux_through (p : List Char) :
    ∀ (l₁ : List Char) (l₂ : List Char) (fuel : Nat),
      (∀ c ∈ l₁, c ≠ '?' ∧ c ≠ '&') → l₁.length + l₂.length < fuel →
      subTrackingAux p fuel (l₁ ++ l₂) = l₁ ++ subTrackingAux p (fuel - l₁.length) l₂ := by
  intro l₁
  induction l₁ with
  | nil => intro l₂ fuel _ _; simp
  | cons c t ih =>
    intro l₂ fuel hl hlen
    cases fuel with
    | zero => omega
    | succ fuel =>
      have hc := hl c (List.mem_cons_self _ _)
      simp only [List.cons_append, subTrackingAux, hc.1, hc.2, decide_False, Bool.false_or,
        Bool.or_self, Bool.false_and, if_false, List.append_eq]
      rw [ih l₂ fuel (fun x hx => hl x (List.mem_cons_of_mem _ hx))
        (by simp only [List.length_cons] at hlen; omega)]
      have he : fuel + 1 - (c :: t).length = fuel - t.length := by
        simp only [List.length_cons]
        omega
      rw [he]
      simp

theorem subTrackingAux_anchor_match (p v : List Char) (hv : ∀ c ∈ v, c ≠ '&') :
    ∀ fuel : Nat, 1 ≤ fuel → subTrackingAux p fuel ('?' :: (p ++ '=' :: v)) = [] := by
  intro fuel h1
  cases fuel with
  | zero => omega
  | succ fuel =>
    have hpre : (p ++ ['=']).isPrefixOf (p ++ '=' :: v) = true := by
      rw [List.isPrefixOf_iff_prefix, show p ++ '=' :: v = (p ++ ['=']) ++ v by simp]
      exact List.prefix_append _ _
    simp only [subTrackingAux, hpre, decide_True, Bool.true_or, Bool.true_and, if_true]
    have hdrop : (p ++ '=' :: v).drop (p.length + 1) = v := by
      rw [show p ++ '=' :: v = (p ++ ['=']) ++ v by simp,
        show p.length + 1 = (p ++ ['=']).length by simp]
      exact List.drop_left _ _
    rw [hdrop]
    have htake : v.takeWhile (fun x => x ≠ '&') = v := by
      rw [List.takeWhile_eq_self_iff]
      intro a ha
      simpa using hv a ha
    rw [htake, List.drop_length]
    cases fuel <;> rfl

theorem subTrackingAux_anchor_skip (p rest : List Char)
    (hrest : ∀ c ∈ rest, c ≠ '?' ∧ c ≠ '&')
    (hpre : (p ++ ['=']).isPrefixOf rest = false) :
    ∀ fuel : Nat, rest.length + 1 < fuel →
      subTrackingAux p fuel ('?' :: rest) = '?' :: rest := by
  intro fuel hlen
  cases fuel with
  | zero => omega
  | succ fuel =>
    simp only [subTrackingAux, hpre, Bool.and_false, if_false]
    rw [subTrackingAux_clean p fuel rest hrest (by omega)]
    simp

/-- A length-`k` disagreement between the patterns rules out a prefix match
against `l₂ ++ a :: r`, whatever `r` is. -/
theorem param_prefix_fail {l₁ l₂ : List Char} (a : Char) (r : List Char) (k : Nat)
    (h1 : k ≤ l₁.length) (h2 : k ≤ (l₂ ++ [a]).length)
    (hne : l₁.take k ≠ (l₂ ++ [a]).take k) :
    l₁.isPrefixOf (l₂ ++ a :: r) = false := by
  by_contra hcon
  have hp : l₁.isPrefixOf (l₂ ++ a :: r) = true := by
    cases h : l₁.isPrefixOf (l₂ ++ a :: r)
    · exact absurd h hcon
    · rfl
  rw [List.isPrefixOf_iff_prefix] at hp
  obtain ⟨t, ht⟩ := hp
  apply hne
  have e1 : l₁.take k = (l₁ ++ t).take k := (List.take_append_of_le_length h1).symm
  rw [ht, show l₂ ++ a :: r = (l₂ ++ [a]) ++ r by simp] at e1
  rw [e1, List.take_append_of_le_length h2]

theorem subTracking_removes (p : String) (base v : List Char)
    (hbase : ∀ c ∈ base, c ≠ '?' ∧ c ≠ '&') (hv : ∀ c ∈ v, c ≠ '&') :
    subTracking p (base ++ '?' :: (p.data ++ '=' :: v)) = base := by
  unfold subTracking
  rw [subTrackingAux_through p.data base ('?' :: (p.data ++ '=' :: v)) _ hbase (by simp)]
  rw [subTrackingAux_anchor_match p.data v hv _ (by simp; omega)]
  simp

theorem subTracking_skips (p : String) (base rest : List Char)
    (hbase : ∀ c ∈ base, c ≠ '?' ∧ c ≠ '&') (hrest : ∀ c ∈ rest, c ≠ '?' ∧ c ≠ '&')
    (hpre : (p.data ++ ['=']).isPrefixOf rest = false) :
    subTracking p (base ++ '?' :: rest) = base ++ '?' :: rest := by
  unfold subTracking
  rw [subTrackingAux_through p.data base ('?' :: rest) _ hbase (by simp)]
  rw [subTrackingAux_anchor_skip p.data rest hrest hpre _ (by simp; omega)]

theorem subTracking_clean (p : String) (l : List Char) (hl : ∀ c ∈ l, c ≠ '?' ∧ c ≠ '&') :
    subTracking p l = l :=
  subTrackingAux_clean p.data _ l hl (Nat.lt_succ_self _)

theorem foldl_subTracking_clean (l : List Char) (hl : ∀ c ∈ l, c ≠ '?' ∧ c ≠ '&') :
    ∀ qs : List String, qs.foldl (fun cs q => subTracking q cs) l = l := by
  intro qs
  induction qs with
  | nil => rfl
  | cons q qs ih => simpa [List.foldl, subTracking_clean q l hl] using ih

theorem foldl_subTracking_removes (p : String) (base v : List Char)
    (hbase : ∀ c ∈ base, c ≠ '?' ∧ c ≠ '&') (hv : ∀ c ∈ v, c ≠ '?' ∧ c ≠ '&')
    (hp : ∀ c ∈ p.data, c ≠ '?' ∧ c ≠ '&') :
    ∀ qs : List String, p ∈ qs →
      (∀ q ∈ qs, q ≠ p → (q.data ++ ['=']).isPrefixOf (p.data ++ '=' :: v) = false) →
      qs.foldl (fun cs q => subTracking q cs) (base ++ '?' :: (p.data ++ '=' :: v)) = base := by
  have hrest : ∀ c ∈ p.data ++ '=' :: v, c ≠ '?' ∧ c ≠ '&' := by
    intro c hc
    rcases List.mem_append.mp hc with h | h
    · exact hp c h
    · rcases List.mem_cons.mp h with h | h
      · subst h; exact ⟨by decide, by decide⟩
      · exact hv c h
  intro qs
  induction qs with
  | nil => intro h; exact absurd h (List.not_mem_nil p)
  | cons q qs ih =>
    intro hmem hfail
    by_cases hq : q = p
    · subst hq
      simp only [List.foldl]
      rw [subTracking_removes q base v hbase (fun c hc => (hv c hc).2)]
      exact foldl_subTracking_clean base hbase qs
    · simp only [List.foldl]
      have hmem' : p ∈ qs := by
        rcases List.mem_cons.mp hmem with h | h
        · exact absurd h.symm hq
        · exact h
      rw [subTracking_skips q base (p.data ++ '=' :: v) hbase hrest
        (hfail q (List.mem_cons_self _ _) hq)]
      exact ih hmem' (fun r hr hrp => hfail r (List.mem_cons_of_mem _ hr) hrp)

theorem dropWhile_append_single (p : Char → Bool) (l : List Char) (c : Char) (hc : p c = false) :
    (l ++ [c]).dropWhile p = l.dropWhile p ++ [c] := by
  induction l with
  | nil => simp [List.dropWhile_cons, hc]
  | cons a t ih =>
    by_cases ha : p a = true
    · simpa [List.dropWhile_cons, ha] using ih
    · simp only [Bool.not_eq_true] at ha
      simp [List.dropWhile_cons, ha]

theorem dropWhileRight_append_neg (p : Char → Bool) (l : List Char) (c : Char)
    (hc : p c = false) : dropWhileRight p (l ++ [c]) = l ++ [c] := by
  simp [dropWhileRight, List.dropWhile_cons, hc]

theorem dropWhileRight_append_pos (p : Char → Bool) (l : List Char) (c : Char)
    (hc : p c = true) : dropWhileRight p (l ++ [c]) = dropWhileRight p l := by
  simp [dropWhileRight, List.dropWhile_cons, hc]

/-- A string fixed by `strip` is fixed by each of its two halves. -/
theorem strip_fixed_parts {l : List Char}
    (h : dropWhileRight pyIsSpace (l.dropWhile pyIsSpace) = l) :
    l.dropWhile pyIsSpace = l ∧ dropWhileRight pyIsSpace l = l := by
  have hsub1 : List.Sublist (l.dropWhile pyIsSpace) l := List.dropWhile_sublist _
  have hlen2 : (dropWhileRight pyIsSpace (l.dropWhile pyIsSpace)).length
      ≤ (l.dropWhile pyIsSpace).length := by
    unfold dropWhileRight
    rw [List.length_reverse]
    calc (List.dropWhile pyIsSpace (l.dropWhile pyIsSpace).reverse).length
        ≤ (l.dropWhile pyIsSpace).reverse.length :=
          List.Sublist.length_le (List.dropWhile_sublist _)
      _ = (l.dropWhile pyIsSpace).length := List.length_reverse _
  have hlen : (l.dropWhile pyIsSpace).length = l.length := by
    have := congrArg List.length h
    have h1 := List.Sublist.length_le hsub1
    omega
  have hfront : l.dropWhile pyIsSpace = l := List.Sublist.eq_of_length hsub1 hlen
  refine ⟨hfront, ?_⟩
  rw [hfront] at h
  exact h

theorem pyLower_append_slash (u : String) : pyLower (u ++ "/") = pyLower u ++ "/" := by
  show String.mk (((u ++ "/").data).map Char.toLower) = String.mk ((pyLower u).data ++ "/".data)
  have : (u ++ "/").data = u.data ++ ['/'] := rfl
  rw [this]
  simp [pyLower]

theorem create_url_hash_append_slash (u : String) (h : pyStrip (pyLower u) = pyLower u) :
    create_url_hash (u ++ "/") = create_url_hash u := by
  have hdata : dropWhileRight pyIsSpace ((pyLower u).data.dropWhile pyIsSpace)
      = (pyLower u).data := congrArg String.data h
  obtain ⟨h1, _⟩ := strip_fixed_parts hdata
  suffices hsuff : pyRstrip ['/'] (pyStrip (pyLower (u ++ "/")))
      = pyRstrip ['/'] (pyStrip (pyLower u)) by
    unfold create_url_hash normalized_url
    rw [hsuff]
  rw [pyLower_append_slash u, h]
  have hslash : pyIsSpace '/' = false := by decide
  have hstrip1 : pyStrip (pyLower u ++ "/") = String.mk ((pyLower u).data ++ ['/']) := by
    show String.mk (dropWhileRight pyIsSpace (((pyLower u ++ "/").data).dropWhile pyIsSpace)) = _
    have : (pyLower u ++ "/").data = (pyLower u).data ++ ['/'] := rfl
    rw [this, dropWhile_append_single pyIsSpace _ '/' hslash, h1,
      dropWhileRight_append_neg pyIsSpace _ '/' hslash]
  rw [hstrip1]
  show String.mk (dropWhileRight (fun c => List.contains ['/'] c) ((pyLower u).data ++ ['/']))
      = String.mk (dropWhileRight (fun c => List.contains ['/'] c) (pyLower u).data)
  rw [dropWhileRight_append_pos _ _ '/' (by decide)]

/-- C6 (amended): the fingerprint of `create_url_hash` is invariant under
letter case, under appending a trailing slash (for a URL whose lowered form
carries no surrounding whitespace), and under appending a single tracking
query parameter as the sole query of a clean base URL (no other `?`/`&`,
already lowered and trimmed, no trailing slash); the spec's concrete pair
`"https://x.com/a?utm_source=y"` / `"https://X.com/a/"` collides as
claimed.  The unrestricted claim — invariance for every pair differing
only by tracking parameters — is refuted by `C6_tracking_counterexample`:
removal of a non-final tracking parameter leaves a dangling `&`. -/
theorem C6_fingerprint_invariance :
    create_url_hash "https://x.com/a?utm_source=y" = create_url_hash "https://X.com/a/" ∧
    (∀ u v : String, pyLower u = pyLower v → create_url_hash u = create_url_hash v) ∧
    (∀ u : String, pyStrip (pyLower u) = pyLower u →
      create_url_hash (u ++ "/") = create_url_hash u) ∧
    (∀ base p v : String, p ∈ trackingParams →
      noQueryChars base.data = true → noQueryChars v.data = true →
      pyLower (base ++ "?" ++ p ++ "=" ++ v) = base ++ "?" ++ p ++ "=" ++ v →
      pyStrip (base ++ "?" ++ p ++ "=" ++ v) = base ++ "?" ++ p ++ "=" ++ v →
      pyRstrip ['/'] (base ++ "?" ++ p ++ "=" ++ v) = base ++ "?" ++ p ++ "=" ++ v →
      pyLower base = base → pyStrip base = base → pyRstrip ['/'] base = base →
      create_url_hash (base ++ "?" ++ p ++ "=" ++ v) = create_url_hash base) := by
  refine ⟨by decide, ?_, ?_, ?_⟩
  · intro u v h
    simp only [create_url_hash, normalized_url, h]
  · exact create_url_hash_append_slash
  · intro base p v hp hbase hv hlow hstrip hrstrip hblow hbstrip hbrstrip
    have hbase' := noQueryChars_forall hbase
    have hv' := noQueryChars_forall hv
    have hwdata : (base ++ "?" ++ p ++ "=" ++ v).data
        = base.data ++ '?' :: (p.data ++ '=' :: v.data) := by
      show base.data ++ ['?'] ++ p.data ++ ['='] ++ v.data = _
      simp
    have hp' : p ∈ ["utm_source", "utm_medium", "utm_campaign", "ref", "source"] := hp
    simp only [create_url_hash, normalized_url]
    rw [hlow, hstrip, hrstrip, hblow, hbstrip, hbrstrip, hwdata]
    have hpchars : ∀ c ∈ p.data, c ≠ '?' ∧ c ≠ '&' := by
      fin_cases hp' <;> exact noQueryChars_forall (by decide)
    have hfail : ∀ q ∈ trackingParams, q ≠ p →
        (q.data ++ ['=']).isPrefixOf (p.data ++ '=' :: v.data) = false := by
      intro q hq hne
      have hq' : q ∈ ["utm_source", "utm_medium", "utm_campaign", "ref", "source"] := hq
      fin_cases hp' <;> fin_cases hq' <;>
        first
          | exact absurd rfl hne
          | exact param_prefix_fail '=' v.data 1 (by decide) (by decide) (by decide)
          | exact param_prefix_fail '=' v.data 5 (by decide) (by decide) (by decide)
    rw [foldl_subTracking_removes p base.data v.data hbase' hv' hpchars trackingParams hp hfail]
    rw [foldl_subTracking_clean base.data hbase' trackingParams]

/-- C6 witness: the tracking-parameter invariance at
`"https://x.com/a" ++ "?utm_source=y"`. -/
theorem C6_fingerprint_invariance_witness :
    create_url_hash ("https://x.com/a" ++ "?" ++ "utm_source" ++ "=" ++ "y")
      = create_url_hash "https://x.com/a" :=
  C6_fingerprint_invariance.2.2.2 "https://x.com/a" "utm_source" "y"
    (by decide) (by decide) (by decide) (by decide) (by decide) (by decide)
    (by decide) (by decide) (by decide)

/-- C6 counterexample: two URLs that differ only by the tracking parameter
`utm_source=y` (in non-final position) receive different keys — the
removal leaves `https://x.com/a&b=1` whereas the other normalizes to
`https://x.com/a?b=1` — refuting the claim for every such pair. -/
theorem C6_tracking_counterexample :
    create_url_hash "https://x.com/a?utm_source=y&b=1"
      ≠ create_url_hash "https://x.com/a?b=1" ∧
    normalized_url "https://x.com/a?utm_source=y&b=1" = "https://x.com/a&b=1" ∧
    normalized_url "https://x.com/a?b=1" = "https://x.com/a?b=1" := by
  refine ⟨by decide, by decide, by decide⟩

/-! ## Lemmas about the retention manager -/

/-- The store invariant the claims rely on: `id` is the primary key, so no
two rows share one. -/
@[reducible] def nodupIds (s : List Article) : Prop :=
  ((s.map (fun a => a.id)).Nodup : Prop)

theorem id_inj {s : List Article} (h : nodupIds s) {a b : Article}
    (ha : a ∈ s) (hb : b ∈ s) (hid : a.id = b.id) : a = b :=
  List.inj_on_of_nodup_map h ha hb hid

theorem nodupIds_of_sublist {s t : List Article} (hsub : List.Sublist t s)
    (h : nodupIds s) : nodupIds t :=
  List.Nodup.sublist (List.Sublist.map _ hsub) h

theorem nodupIds_filter {s : List Article} (p : Article → Bool) (h : nodupIds s) :
    nodupIds (s.filter p) :=
  nodupIds_of_sublist (List.filter_sublist s) h

theorem nat_contains_iff (l : List Nat) (n : Nat) : l.contains n = true ↔ n ∈ l := by
  induction l with
  | nil => simp [List.contains]
  | cons a t ih => simp [List.contains] at ih ⊢

theorem contains_id_iff {dels : List Article} {s : List Article} (h : nodupIds s)
    (hdels : ∀ a ∈ dels, a ∈ s) {b : Article} (hb : b ∈ s) :
    (dels.map (fun a => a.id)).contains b.id = true ↔ b ∈ dels := by
  rw [nat_contains_iff]
  constructor
  · intro hmem
    obtain ⟨a, ha, haid⟩ := List.mem_map.mp hmem
    exact (id_inj h (hdels a ha) hb haid) ▸ ha
  · intro hmem
    exact List.mem_map.mpr ⟨b, hmem, rfl⟩

theorem deleteByIds_spec {s dels : List Article} (h : nodupIds s)
    (hdels : ∀ a ∈ dels, a ∈ s) :
    deleteByIds (dels.map (fun a => a.id)) s = s.filter (fun b => !(decide (b ∈ dels))) := by
  unfold deleteByIds
  apply List.filter_congr
  intro b hb
  have hiff := contains_id_iff h hdels hb
  by_cases hmem : b ∈ dels
  · rw [hiff.mpr hmem, decide_eq_true hmem]
  · have hfalse : (dels.map (fun a => a.id)).contains b.id = false := by
      cases hcc : (dels.map (fun a => a.id)).contains b.id
      · rfl
      · exact absurd (hiff.mp hcc) hmem
    rw [hfalse, decide_eq_false hmem]

theorem filter_deleteByIds (p : Article → Bool) {s dels : List Article} (h : nodupIds s)
    (hdels : ∀ a ∈ dels, a ∈ s) :
    (deleteByIds (dels.map (fun a => a.id)) s).filter p
      = (s.filter p).filter (fun b => !(decide (b ∈ dels))) := by
  rw [deleteByIds_spec h hdels, List.filter_comm]

theorem nodupIds_deleteByIds {s : List Article} (ids : List Nat) (h : nodupIds s) :
    nodupIds (deleteByIds ids s) :=
  nodupIds_of_sublist (List.filter_sublist s) h

theorem phase1_batch_step (cutoff : Int) {s : List Article} (h : nodupIds s)
    (hbne : (s.filter (ageMatch cutoff)).take 100 ≠ []) :
    (deleteByIds (((s.filter (ageMatch cutoff)).take 100).map (fun a => a.id)) s).filter
        (ageMatch cutoff) = (s.filter (ageMatch cutoff)).drop 100 ∧
    (deleteByIds (((s.filter (ageMatch cutoff)).take 100).map (fun a => a.id)) s).filter
        (fun a => !ageMatch cutoff a) = s.filter (fun a => !ageMatch cutoff a) ∧
    (deleteByIds (((s.filter (ageMatch cutoff)).take 100).map (fun a => a.id)) s).length
        < s.length := by
  set m := s.filter (ageMatch cutoff) with hm
  set batch := m.take 100 with hbatch
  have hbsub : ∀ a ∈ batch, a ∈ s := fun a ha =>
    (List.mem_filter.mp (List.mem_of_mem_take ha)).1
  have hmnodup : m.Nodup := List.Nodup.filter _ (List.Nodup.of_map _ h)
  refine ⟨?_, ?_, ?_⟩
  · rw [filter_deleteByIds _ h hbsub, ← hm]
    conv_lhs => rw [show m = batch ++ m.drop 100 from (List.take_append_drop 100 m).symm]
    rw [List.filter_append]
    have h1 : batch.filter (fun b => !(decide (b ∈ batch))) = [] := by
      apply List.filter_eq_nil_iff.mpr
      intro a ha
      simp [ha]
    have h2 : (m.drop 100).filter (fun b => !(decide (b ∈ batch))) = m.drop 100 := by
      apply List.filter_eq_self.mpr
      intro a ha
      have hdisj := List.disjoint_take_drop hmnodup (le_refl 100)
      have hnot : a ∉ batch := fun hin => hdisj hin ha
      simp [hnot]
    rw [h1, h2, List.nil_append]
  · rw [filter_deleteByIds _ h hbsub]
    apply List.filter_eq_self.mpr
    intro b hbmem
    have hbs := List.mem_filter.mp hbmem
    have hnot : b ∉ batch := by
      intro hin
      have hpb := (List.mem_filter.mp (List.mem_of_mem_take hin)).2
      rw [hpb] at hbs
      simpa using hbs.2
    simp [hnot]
  · unfold deleteByIds
    apply List.length_filter_lt_length_iff_exists.mpr
    obtain ⟨a, ha⟩ := List.exists_mem_of_ne_nil batch hbne
    refine ⟨a, hbsub a ha, ?_⟩
    have hcont : (batch.map (fun a => a.id)).contains a.id = true :=
      (contains_id_iff h hbsub (hbsub a ha)).mpr ha
    rw [hcont]
    simp

theorem phase1Loop_spec (cutoff : Int) (oldCount : Nat) :
    ∀ (fuel : Nat) (s : List Article) (total : Nat),
      s.length < fuel → nodupIds s →
      total + (s.filter (ageMatch cutoff)).length = oldCount →
      phase1Loop cutoff oldCount fuel s total
        = (s.filter (fun a => !ageMatch cutoff a), oldCount) := by
  intro fuel
  induction fuel with
  | zero => intro s total hlen _ _; omega
  | succ fuel ih =>
    intro s total hlen hnd hinv
    by_cases hb : ((s.filter (ageMatch cutoff)).take 100).isEmpty
    · have hm0 : s.filter (ageMatch cutoff) = [] := by
        rcases List.take_eq_nil_iff.mp (List.isEmpty_iff.mp hb) with h | h
        · omega
        · exact h
      have hfil : s.filter (fun a => !ageMatch cutoff a) = s := by
        apply List.filter_eq_self.mpr
        intro a ha
        have : ageMatch cutoff a = false := by
          by_contra hcon
          have : ageMatch cutoff a = true := by
            cases hcc : ageMatch cutoff a
            · exact absurd hcc hcon
            · rfl
          have : a ∈ s.filter (ageMatch cutoff) := List.mem_filter.mpr ⟨ha, this⟩
          rw [hm0] at this
          exact absurd this (List.not_mem_nil a)
        simp [this]
      have htot : total = oldCount := by
        rw [hm0] at hinv
        simpa using hinv
      simp only [phase1Loop]
      rw [if_pos hb, hfil, htot]
    · have hbne : (s.filter (ageMatch cutoff)).take 100 ≠ [] := by
        simpa [List.isEmpty_iff] using hb
      obtain ⟨hk1, hk2, hk4⟩ := phase1_batch_step cutoff hnd hbne
      have hnd2 := nodupIds_deleteByIds
        (((s.filter (ageMatch cutoff)).take 100).map (fun a => a.id)) hnd
      have hlen_take : ((s.filter (ageMatch cutoff)).take 100).length
          = min 100 (s.filter (ageMatch cutoff)).length := List.length_take _ _
      have hlen_drop : ((s.filter (ageMatch cutoff)).drop 100).length
          = (s.filter (ageMatch cutoff)).length - 100 := List.length_drop _ _
      have hmap_len : (((s.filter (ageMatch cutoff)).take 100).map (fun a => a.id)).length
          = ((s.filter (ageMatch cutoff)).take 100).length := List.length_map _ _
      have hsafety : ¬(oldCount + 100 ≤
          total + (((s.filter (ageMatch cutoff)).take 100).map (fun a => a.id)).length) := by
        rw [hmap_len, hlen_take]
        omega
      have hinv2 : total + (((s.filter (ageMatch cutoff)).take 100).map (fun a => a.id)).length
          + ((deleteByIds (((s.filter (ageMatch cutoff)).take 100).map (fun a => a.id)) s).filter
              (ageMatch cutoff)).length = oldCount := by
        rw [hk1, hmap_len, hlen_take, hlen_drop]
        omega
      simp only [phase1Loop]
      rw [if_neg hb, if_neg hsafety]
      rw [ih _ _ (by omega) hnd2 hinv2, hk2]

theorem purgePhase1_spec (cutoff : Int) (s : List Article) (h : nodupIds s) :
    purgePhase1 cutoff s
      = (s.filter (fun a => !ageMatch cutoff a), (s.filter (ageMatch cutoff)).length) := by
  unfold purgePhase1
  by_cases h0 : 0 < (s.filter (ageMatch cutoff)).length
  · rw [if_pos h0]
    exact phase1Loop_spec cutoff _ (s.length + 1) s 0 (Nat.lt_succ_self _) h (by omega)
  · rw [if_neg h0]
    have hlen0 : (s.filter (ageMatch cutoff)).length = 0 := by omega
    have hm0 : s.filter (ageMatch cutoff) = [] := List.length_eq_zero.mp hlen0
    have hfil : s.filter (fun a => !ageMatch cutoff a) = s := by
      apply List.filter_eq_self.mpr
      intro a ha
      have hfalse : ageMatch cutoff a = false := by
        cases hcc : ageMatch cutoff a
        · rfl
        · have : a ∈ s.filter (ageMatch cutoff) := List.mem_filter.mpr ⟨ha, hcc⟩
          rw [hm0] at this
          exact absurd this (List.not_mem_nil a)
      simp [hfalse]
    rw [hfil, hlen0]

/-- C4 (amended): phase 1 deletes exactly the rows — whether or not already
soft-deleted — whose `published_at`, or `created_at` when `published_at` is
null, precedes the cutoff (`ageMatch`); every other row is untouched, and
`deleted_by_age` counts exactly the matching rows.  (The original claim's
`fetched_at` fallback and restriction to non-deleted rows are refuted by
`C4_age_purge_counterexample`.) -/
theorem C4_age_purge (cutoff : Int) (s : List Article) (h : nodupIds s) :
    (purgePhase1 cutoff s).1 = s.filter (fun a => !ageMatch cutoff a) ∧
    (purgePhase1 cutoff s).2 = (s.filter (ageMatch cutoff)).length ∧
    (∀ a ∈ s, ageMatch cutoff a = false → a ∈ (purgePhase1 cutoff s).1) := by
  have hs := purgePhase1_spec cutoff s h
  rw [hs]
  refine ⟨rfl, rfl, ?_⟩
  intro a ha hfalse
  exact List.mem_filter.mpr ⟨ha, by simp [hfalse]⟩

/-- Row constructor shorthand for concrete stores. -/
def mkArt (i : Nat) (p : Option Int) (c f : Int) (d : Bool) : Article :=
  { id := i, published_at := p, created_at := c, fetched_at := f, is_deleted := d }

/-- C4 witness: the amended statement at a concrete two-row store. -/
theorem C4_age_purge_witness :
    (purgePhase1 100 [mkArt 0 (some 50) 0 0 false, mkArt 1 (some 200) 0 0 false]).1
      = [mkArt 1 (some 200) 0 0 false] ∧
    (purgePhase1 100 [mkArt 0 (some 50) 0 0 false, mkArt 1 (some 200) 0 0 false]).2 = 1 := by
  have h := C4_age_purge 100 [mkArt 0 (some 50) 0 0 false, mkArt 1 (some 200) 0 0 false]
    (by decide)
  exact ⟨by rw [h.1]; decide, by rw [h.2.1]; decide⟩

/-- Article with null `published_at`, old `fetched_at`, young `created_at`. -/
def artNullOldFetch : Article :=
  { id := 0, published_at := none, created_at := 150, fetched_at := 50, is_deleted := false }

/-- Soft-deleted article older than the cutoff. -/
def artSoftDeleted : Article :=
  { id := 1, published_at := some 50, created_at := 10, fetched_at := 10, is_deleted := true }

/-- C4 counterexample (cutoff 100): the non-deleted article whose
`fetched_at` (50) precedes the cutoff but whose `created_at` (150) does not
is NOT deleted, while the already soft-deleted article IS hard-deleted —
refuting both the `fetched_at` fallback and the non-deleted restriction. -/
theorem C4_age_purge_counterexample :
    (purgePhase1 100 [artNullOldFetch, artSoftDeleted]).1 = [artNullOldFetch] ∧
    artNullOldFetch.published_at = none ∧
    artNullOldFetch.fetched_at < 100 ∧
    artNullOldFetch.is_deleted = false ∧
    artSoftDeleted.is_deleted = true ∧
    artSoftDeleted ∉ (purgePhase1 100 [artNullOldFetch, artSoftDeleted]).1 := by
  refine ⟨by decide, by decide, by decide, by decide, by decide, by decide⟩

theorem oldestLE_total : ∀ a b : Article, oldestLE a b = true ∨ oldestLE b a = true := by
  intro a b
  unfold oldestLE
  rcases a.published_at with _ | p <;> rcases b.published_at with _ | q <;> simp <;> omega

theorem oldestLE_trans : ∀ a b c : Article,
    oldestLE a b = true → oldestLE b c = true → oldestLE a c = true := by
  intro a b c
  unfold oldestLE
  rcases a.published_at with _ | p <;> rcases b.published_at with _ | q <;>
    rcases c.published_at with _ | r <;> simp <;> omega

instance : IsTotal Article (fun a b => oldestLE a b = true) := ⟨oldestLE_total⟩

instance : IsTrans Article (fun a b => oldestLE a b = true) := ⟨oldestLE_trans⟩

/-- Core of phase 2: deleting the first `k` rows of the sorted non-deleted
view removes exactly `k` non-deleted rows, and every removed row precedes
every surviving non-deleted row in the `oldestLE` order. -/
theorem phase2_core {s nd srt : List Article} (k : Nat) (h : nodupIds s)
    (hnd : nd = s.filter (fun a => !a.is_deleted)) (hsrt : srt = sortOldest nd) :
    countNonDeleted (deleteByIds ((srt.take k).map (fun a => a.id)) s) = nd.length - k ∧
    (∀ a ∈ s, a ∉ deleteByIds ((srt.take k).map (fun a => a.id)) s →
      ∀ b ∈ deleteByIds ((srt.take k).map (fun a => a.id)) s,
        b.is_deleted = false → oldestLE a b = true) := by
  have hperm : List.Perm srt nd := by
    rw [hsrt]
    exact List.perm_insertionSort _ _
  have hslen : srt.length = nd.length := hperm.length_eq
  have hndsub : ∀ a ∈ nd, a ∈ s := by
    intro a ha
    rw [hnd] at ha
    exact (List.mem_filter.mp ha).1
  have hosub : ∀ a ∈ srt.take k, a ∈ s :=
    fun a ha => hndsub a (hperm.mem_iff.mp (List.mem_of_mem_take ha))
  have hnd_nodup : nodupIds nd := by
    rw [hnd]
    exact nodupIds_filter _ h
  have hsrt_nodup_ids : nodupIds srt :=
    (List.Perm.nodup_iff (hperm.map (fun a => a.id))).mpr hnd_nodup
  have hsrt_nodup : srt.Nodup := List.Nodup.of_map _ hsrt_nodup_ids
  have hdel : deleteByIds ((srt.take k).map (fun a => a.id)) s
      = s.filter (fun b => !(decide (b ∈ srt.take k))) := deleteByIds_spec h hosub
  have hsrt_filter : ∀ t, t = srt.take k →
      srt.filter (fun b => !(decide (b ∈ t))) = srt.drop k := by
    intro t ht
    conv_lhs => rw [show srt = srt.take k ++ srt.drop k from (List.take_append_drop k srt).symm]
    rw [List.filter_append]
    have h1 : (srt.take k).filter (fun b => !(decide (b ∈ t))) = [] := by
      apply List.filter_eq_nil_iff.mpr
      intro a ha
      simp [ht, ha]
    have h2 : (srt.drop k).filter (fun b => !(decide (b ∈ t))) = srt.drop k := by
      apply List.filter_eq_self.mpr
      intro a ha
      have hdisj := List.disjoint_take_drop hsrt_nodup (le_refl k)
      have hnot : a ∉ t := by
        rw [ht]
        exact fun hin => hdisj hin ha
      simp [hnot]
    rw [h1, h2, List.nil_append]
  have hpf : List.Perm (srt.filter (fun b => !(decide (b ∈ srt.take k))))
      (nd.filter (fun b => !(decide (b ∈ srt.take k)))) := hperm.filter _
  have hfilter2 : (deleteByIds ((srt.take k).map (fun a => a.id)) s).filter
      (fun a => !a.is_deleted) = nd.filter (fun b => !(decide (b ∈ srt.take k))) := by
    rw [filter_deleteByIds _ h hosub, ← hnd]
  have hsorted : List.Sorted (fun a b => oldestLE a b = true) srt := by
    rw [hsrt]
    exact List.sorted_insertionSort _ _
  constructor
  · unfold countNonDeleted
    rw [hfilter2, ← hpf.length_eq, hsrt_filter _ rfl, List.length_drop, hslen]
  · intro a hamem hanot b hbmem hbdel
    have hamem2 : a ∈ srt.take k := by
      by_contra hak
      apply hanot
      rw [hdel]
      exact List.mem_filter.mpr ⟨hamem, by simp [hak]⟩
    rw [hdel] at hbmem
    have hbs : b ∈ s := (List.mem_filter.mp hbmem).1
    have hbnot : b ∉ srt.take k := by
      have hpb := (List.mem_filter.mp hbmem).2
      simpa using hpb
    have hbnd : b ∈ nd := by
      rw [hnd]
      exact List.mem_filter.mpr ⟨hbs, by simp [hbdel]⟩
    have hbsrt : b ∈ srt := hperm.mem_iff.mpr hbnd
    have hbsplit : b ∈ srt.take k ++ srt.drop k := by
      rw [List.take_append_drop]
      exact hbsrt
    have hbdrop : b ∈ srt.drop k := by
      rcases List.mem_append.mp hbsplit with h1 | h2
      · exact absurd h1 hbnot
      · exact h2
    have hpw : List.Pairwise (fun x y => oldestLE x y = true) (srt.take k ++ srt.drop k) := by
      rw [List.take_append_drop]
      exact hsorted
    exact (List.pairwise_append.mp hpw).2.2 a hamem2 b hbdrop

/-- Phase-2 contract: the post-run non-deleted count is `min count 1000`,
`deleted_by_count` is the excess over 1000, and every deleted row precedes
every surviving non-deleted row in the `oldestLE` order. -/
theorem purgePhase2_spec (s : List Article) (h : nodupIds s) :
    countNonDeleted (purgePhase2 s).1 = min (countNonDeleted s) MAX_ARTICLES_COUNT ∧
    (purgePhase2 s).2 = countNonDeleted s - MAX_ARTICLES_COUNT ∧
    (∀ a ∈ s, a ∉ (purgePhase2 s).1 →
      ∀ b ∈ (purgePhase2 s).1, b.is_deleted = false → oldestLE a b = true) := by
  by_cases hc : MAX_ARTICLES_COUNT < countNonDeleted s
  · have hcnt : countNonDeleted s = (s.filter (fun a => !a.is_deleted)).length := rfl
    have hslen2 : (sortOldest (s.filter (fun a => !a.is_deleted))).length
        = (s.filter (fun a => !a.is_deleted)).length := (List.perm_insertionSort _ _).length_eq
    have hone : ¬((((sortOldest (s.filter (fun a => !a.is_deleted))).take
        (countNonDeleted s - MAX_ARTICLES_COUNT)).isEmpty) = true) := by
      rw [List.isEmpty_iff]
      intro h0
      have hlen := congrArg List.length h0
      rw [List.length_take, hslen2] at hlen
      simp only [List.length_nil] at hlen
      omega
    have heq : purgePhase2 s =
        (deleteByIds (((sortOldest (s.filter (fun a => !a.is_deleted))).take
            (countNonDeleted s - MAX_ARTICLES_COUNT)).map (fun a => a.id)) s,
         (((sortOldest (s.filter (fun a => !a.is_deleted))).take
            (countNonDeleted s - MAX_ARTICLES_COUNT)).map (fun a => a.id)).length) := by
      simp only [purgePhase2]
      rw [if_pos hc, if_neg hone]
    have hproj1 : (purgePhase2 s).1
        = deleteByIds (((sortOldest (s.filter (fun a => !a.is_deleted))).take
            (countNonDeleted s - MAX_ARTICLES_COUNT)).map (fun a => a.id)) s := by
      rw [heq]
    have hproj2 : (purgePhase2 s).2
        = (((sortOldest (s.filter (fun a => !a.is_deleted))).take
            (countNonDeleted s - MAX_ARTICLES_COUNT)).map (fun a => a.id)).length := by
      rw [heq]
    obtain ⟨hcore1, hcore2⟩ :=
      phase2_core (countNonDeleted s - MAX_ARTICLES_COUNT) h rfl rfl
    refine ⟨?_, ?_, ?_⟩
    · rw [hproj1, hcore1]
      omega
    · rw [hproj2, List.length_map, List.length_take, hslen2]
      omega
    · intro a ha hanot b hb hbdel
      rw [hproj1] at hanot hb
      exact hcore2 a ha hanot b hb hbdel
  · have heq : purgePhase2 s = (s, 0) := by
      simp only [purgePhase2]
      rw [if_neg hc]
    rw [heq]
    refine ⟨(Nat.min_eq_left (Nat.le_of_not_lt hc)).symm,
      (Nat.sub_eq_zero_of_le (Nat.le_of_not_lt hc)).symm, ?_⟩
    intro a ha hanot
    exact absurd ha hanot

/-- C1 (amended): after a normal run (no phase-1 failure), at most
MAX_ARTICLES_COUNT (1000) non-deleted articles remain: the post-phase-2
non-deleted count is `min count 1000` where `count` is the re-count after
phase 1, `deleted_by_count` is exactly the excess over 1000, and every
article deleted by phase 2 precedes every surviving non-deleted article in
the order `published_at` ascending with `created_at` ascending as
tie-break — with null `published_at` sorting as the NEWEST (Postgres ASC
places NULLS LAST), not as the oldest as the original claim states. -/
theorem C1_count_retention (cutoff : Int) (s : List Article) (h : nodupIds s) :
    countNonDeleted (purge_old_articles false cutoff s).store ≤ MAX_ARTICLES_COUNT ∧
    countNonDeleted (purge_old_articles false cutoff s).store
      = min (countNonDeleted (purgePhase1 cutoff s).1) MAX_ARTICLES_COUNT ∧
    (purge_old_articles false cutoff s).deleted_by_count
      = countNonDeleted (purgePhase1 cutoff s).1 - MAX_ARTICLES_COUNT ∧
    (∀ a ∈ (purgePhase1 cutoff s).1, a ∉ (purge_old_articles false cutoff s).store →
      ∀ b ∈ (purge_old_articles false cutoff s).store, b.is_deleted = false →
        oldestLE a b = true) := by
  have hnd1 : nodupIds (purgePhase1 cutoff s).1 := by
    rw [purgePhase1_spec cutoff s h]
    exact nodupIds_filter _ h
  have hstore : (purge_old_articles false cutoff s).store
      = (purgePhase2 (purgePhase1 cutoff s).1).1 := rfl
  have hdelcnt : (purge_old_articles false cutoff s).deleted_by_count
      = (purgePhase2 (purgePhase1 cutoff s).1).2 := rfl
  obtain ⟨hp1, hp2, hp3⟩ := purgePhase2_spec (purgePhase1 cutoff s).1 hnd1
  refine ⟨?_, ?_, ?_, ?_⟩
  · rw [hstore, hp1]
    exact Nat.min_le_right _ _
  · rw [hstore]
    exact hp1
  · rw [hdelcnt]
    exact hp2
  · intro a ha hanot b hb hbdel
    rw [hstore] at hanot hb
    exact hp3 a ha hanot b hb hbdel

/-- C1 witness: the retention bound at a concrete one-row store. -/
theorem C1_count_retention_witness :
    countNonDeleted (purge_old_articles false 0 [mkArt 5 (some 3) 2 2 false]).store
      ≤ MAX_ARTICLES_COUNT :=
  (C1_count_retention 0 [mkArt 5 (some 3) 2 2 false] (by decide)).1

/-- The 1002-row store for the C1 and C5 counterexamples: one non-deleted
row with null `published_at` and 1001 non-deleted rows published at
1..1001. -/
def cexStore : List Article :=
  mkArt 0 none 0 0 false ::
    (List.range 1001).map (fun i => mkArt (i + 1) (some (Int.ofNat i + 1))
      (Int.ofNat i + 1) (Int.ofNat i + 1) false)

set_option maxRecDepth 20000

/-- C1 counterexample: a store of 1002 non-deleted rows, one with null
`published_at`; phase 2 deletes 2 rows, and they are the two oldest
NON-NULL rows (ids 1 and 2) — the null-`published_at` row survives,
refuting the original claim that null `published_at` sorts as the
oldest. -/
theorem C1_nulls_last_counterexample :
    countNonDeleted cexStore = 1002 ∧
    (purge_old_articles false (-1000000) cexStore).deleted_by_count = 2 ∧
    mkArt 0 none 0 0 false ∈ (purge_old_articles false (-1000000) cexStore).store ∧
    mkArt 1 (some 1) 1 1 false ∉ (purge_old_articles false (-1000000) cexStore).store ∧
    mkArt 2 (some 2) 2 2 false ∉ (purge_old_articles false (-1000000) cexStore).store := by
  refine ⟨by decide, by decide, by decide, by decide, by decide⟩

/-- C5 (amended): the `except` block at purge_data.py lines 129-131
re-raises, so a phase-1 store failure ABORTS `purge_old_articles` before
phase 2 runs (`phase2Ran = false`, store untouched, exception escapes); the
failure is only caught at `main` (lines 334-343), where the run continues
with the fetch-log and storage-metric purges.  The original claim that
phase 2 still executes after a phase-1 failure is refuted. -/
theorem C5_phase1_failure_skips_phase2 (cutoff : Int) (s : List Article) :
    (purge_old_articles true cutoff s).phase2Ran = false ∧
    (purge_old_articles true cutoff s).raised = true ∧
    (purge_old_articles true cutoff s).store = s ∧
    (purge_old_articles true cutoff s).deleted_by_age = 0 ∧
    (purge_old_articles true cutoff s).deleted_by_count = 0 ∧
    (purgeMain true cutoff s).articlePurgeFailed = true ∧
    (purgeMain true cutoff s).logPurgeRan = true ∧
    (purgeMain true cutoff s).metricsPurgeRan = true :=
  ⟨rfl, rfl, rfl, rfl, rfl, rfl, rfl, rfl⟩

/-- C5 counterexample: a store 2 over the cap with a failing phase 1 —
phase 2 does not run and all 1002 rows survive, though the over-limit
count would have made a completed phase 2 delete 2 of them; this refutes
the claim that phase 2 still executes when phase 1 fails. -/
theorem C5_phase2_skipped_counterexample :
    MAX_ARTICLES_COUNT < countNonDeleted cexStore ∧
    (purge_old_articles true (-1000000) cexStore).phase2Ran = false ∧
    (purge_old_articles true (-1000000) cexStore).deleted_by_count = 0 ∧
    (purge_old_articles true (-1000000) cexStore).store = cexStore := by
  refine ⟨by decide, rfl, rfl, rfl⟩

end AINews
